import Mathlib

/-!
Verification of the ESP8266WiFiMesh `JsonTranslator` message codec
(src/libraries/ESP8266WiFiMesh/src/JsonTranslator.cpp).

Strings are embedded as `List Char`.  The Arduino `String` primitives used by
the codec (`indexOf`, `substring`, concatenation) and the collaborator helpers
declared in headers that are not part of src/ (field-identifier constants from
JsonTranslator.h, `uint64ToString`/`stringToUint64`/`stringToMac` from
TypeConversionFunctions, the temporary-request header constant from
EspnowProtocolInterpreter.h, and libc `strtoul`) are modelled explicitly;
each such definition carries a doc comment saying so.  Machine integers are
embedded as `Nat` with explicit bounds where overflow matters.
-/

set_option maxHeartbeats 1000000

namespace JsonTranslator

/-- Modelled from the spec: first-occurrence substring search underlying
Arduino `String::indexOf(pattern, fromIndex)` (WString.cpp is repository code
absent from src/).  Returns the index of the first position at which `pat`
is a prefix of the remaining list, scanning left to right. -/
def findSub (pat : List Char) : List Char → Option Nat
  | [] => none
  | c :: rest =>
    if pat.isPrefixOf (c :: rest) then some 0 else (findSub pat rest).map (· + 1)

/-- Modelled from the spec: Arduino `String::indexOf(pattern, fromIndex)`;
returns -1 when the pattern does not occur at or after `start`. -/
def indexOfFrom (s pat : List Char) (start : Nat) : Int :=
  match findSub pat (s.drop start) with
  | some j => ((start + j : Nat) : Int)
  | none => -1

/-- Modelled from the spec: Arduino `String::substring(left, right)`:
swaps the bounds when `left > right`, clamps to the length, and returns the
characters in `[left, right)`. -/
def substring (s : List Char) (left right : Nat) : List Char :=
  (s.take (max left right)).drop (min left right)

/-- Modelled from the spec: Arduino `String::substring(left)`: the characters
from `left` to the end of the buffer. -/
def substringFrom (s : List Char) (left : Nat) : List Char :=
  s.drop left

/-! Field identifier constants.  Modelled from the spec: JsonTranslator.h is
repository code absent from src/; per the spec's wire grammar each identifier
is the quoted field name followed by a colon (the value's opening quote is
added by `createJsonPair` and skipped by `getStartIndex`). -/

/-- Modelled from the spec: wire identifier of the connectionState field. -/
def jsonConnectionState : List Char := ("\"connectionState\":").toList
/-- Modelled from the spec: wire identifier of the password field. -/
def jsonPassword : List Char := ("\"password\":").toList
/-- Modelled from the spec: wire identifier of the ownSK field. -/
def jsonOwnSessionKey : List Char := ("\"ownSK\":").toList
/-- Modelled from the spec: wire identifier of the peerSK field. -/
def jsonPeerSessionKey : List Char := ("\"peerSK\":").toList
/-- Modelled from the spec: wire identifier of the peerStaMac field. -/
def jsonPeerStaMac : List Char := ("\"peerStaMac\":").toList
/-- Modelled from the spec: wire identifier of the peerApMac field. -/
def jsonPeerApMac : List Char := ("\"peerApMac\":").toList
/-- Modelled from the spec: wire identifier of the duration field. -/
def jsonDuration : List Char := ("\"duration\":").toList
/-- Modelled from the spec: wire identifier of the nonce field. -/
def jsonNonce : List Char := ("\"nonce\":").toList
/-- Modelled from the spec: wire identifier of the hmac field. -/
def jsonHmac : List Char := ("\"hmac\":").toList
/-- Modelled from the spec: wire identifier of the desync field. -/
def jsonDesync : List Char := ("\"desync\":").toList
/-- Modelled from the spec: wire identifier of the unsynchronizedMessageID field. -/
def jsonUnsynchronizedMessageID : List Char := ("\"unsyncMsgID\":").toList
/-- Modelled from the spec: wire identifier of the meshMessageCount field. -/
def jsonMeshMessageCount : List Char := ("\"meshMsgCount\":").toList

/-- Modelled from the spec: the designated "temporary encryption request"
header constant from EspnowProtocolInterpreter.h (absent from src/); its
exact text is an opaque protocol constant. -/
def temporaryEncryptionRequestHeader : List Char :=
  ("Temporary encryption request.").toList

/-- Modelled from the spec: `CryptoInterface::SHA256_NATURAL_LENGTH`, the
natural byte length of SHA-256. -/
def SHA256_NATURAL_LENGTH : Nat := 32

/-! Numeric/hex conversion collaborators.  Modelled from the spec:
TypeConversionFunctions.cpp is repository code absent from src/.  Per the
spec and the source's own example (`"ownSK":"3B4"` for key 0x3B4), 64-bit
session keys travel as uppercase hexadecimal strings. -/

/-- Hexadecimal digit character for a value below 16 (uppercase letters). -/
def hexChar (d : Nat) : Char :=
  if d < 10 then Char.ofNat (48 + d) else Char.ofNat (55 + d)

/-- Accumulate the hexadecimal digits of `n` (most significant first); the
first argument is fuel, always called with at least `n`. -/
def toHexAux : Nat → Nat → List Char → List Char
  | 0, _, acc => acc
  | fuel + 1, n, acc =>
    if n = 0 then acc else toHexAux fuel (n / 16) (hexChar (n % 16) :: acc)

/-- Modelled from the spec: `TypeCast::uint64ToString`, rendering a 64-bit key
as an uppercase hexadecimal string ("0" for zero). -/
def uint64ToString (n : Nat) : List Char :=
  if n = 0 then ['0'] else toHexAux n n []

/-- Numeric value of a hexadecimal digit character (0 for other characters). -/
def hexVal (c : Char) : Nat :=
  if 48 ≤ c.toNat ∧ c.toNat ≤ 57 then c.toNat - 48
  else if 65 ≤ c.toNat ∧ c.toNat ≤ 90 then c.toNat - 55
  else if 97 ≤ c.toNat ∧ c.toNat ≤ 122 then c.toNat - 87
  else 0

/-- Left fold of hexadecimal digits onto an accumulator. -/
def parseHexFold : List Char → Nat → Nat
  | [], v => v
  | c :: rest, v => parseHexFold rest (v * 16 + hexVal c)

/-- Modelled from the spec: `TypeCast::stringToUint64`, parsing a hexadecimal
string into a 64-bit value. -/
def stringToUint64 (s : List Char) : Nat :=
  parseHexFold s 0 % 18446744073709551616

/-- Modelled from the spec: Arduino `String(uint32)`, the base-10 decimal
rendering of a 32-bit number; digit accumulator (most significant first); the
first argument is fuel, always called with at least `n`. -/
def toDecAux : Nat → Nat → List Char → List Char
  | 0, _, acc => acc
  | fuel + 1, n, acc =>
    if n = 0 then acc else toDecAux fuel (n / 10) (Char.ofNat (48 + n % 10) :: acc)

/-- Modelled from the spec: Arduino `String(uint32)` decimal rendering. -/
def uint32ToString (n : Nat) : List Char :=
  if n = 0 then ['0'] else toDecAux n n []

/-- Modelled from the spec: `TypeCast::stringToMac`, converting a
12-hex-character string into 6 bytes. -/
def stringToMac : List Char → List Nat
  | a :: b :: rest => (hexVal a * 16 + hexVal b) :: stringToMac rest
  | _ => []

/-! libc `strtoul(str, nullptr, 0)` on a 32-bit `unsigned long`, as called by
the numeric getters.  Base 0 means: optional whitespace, optional sign, then
a `0x`/`0X` prefix selects base 16, a leading `0` selects base 8, otherwise
base 10; digits are read until the first invalid character; on overflow the
result is clamped to ULONG_MAX. -/

/-- ASCII whitespace recognised by `strtoul`. -/
def isSpaceChar (c : Char) : Bool :=
  c == ' ' || c == '\t' || c == '\n' || c == '\x0b' || c == '\x0c' || c == '\r'

/-- Value of `c` as a digit in `base`, if valid. -/
def digitValInBase (base : Nat) (c : Char) : Option Nat :=
  if 48 ≤ c.toNat ∧ c.toNat ≤ 57 then
    if c.toNat - 48 < base then some (c.toNat - 48) else none
  else if 65 ≤ c.toNat ∧ c.toNat ≤ 90 then
    if c.toNat - 55 < base then some (c.toNat - 55) else none
  else if 97 ≤ c.toNat ∧ c.toNat ≤ 122 then
    if c.toNat - 87 < base then some (c.toNat - 87) else none
  else none

/-- Largest value of a 32-bit `unsigned long` on the target. -/
def ULONG_MAX : Nat := 4294967295

/-- Digit-reading loop of `strtoul`: stops at the first invalid character,
clamps to ULONG_MAX and records overflow. -/
def strtoulLoopO (base : Nat) : List Char → Nat → Bool → Nat × Bool
  | [], acc, ov => (acc, ov)
  | c :: rest, acc, ov =>
    match digitValInBase base c with
    | some d =>
      if acc * base + d ≤ ULONG_MAX then strtoulLoopO base rest (acc * base + d) ov
      else strtoulLoopO base rest ULONG_MAX true
    | none => (acc, ov)

/-- Base detection of `strtoul` with base argument 0, returning the magnitude
and an overflow flag. -/
def strtoulBase0 (s : List Char) : Nat × Bool :=
  if 2 ≤ s.length ∧ s.headD ' ' = '0' ∧
      ((s.drop 1).headD ' ' = 'x' ∨ (s.drop 1).headD ' ' = 'X') ∧
      (digitValInBase 16 ((s.drop 2).headD ' ')).isSome then
    strtoulLoopO 16 (s.drop 2) 0 false
  else if s.headD ' ' = '0' then strtoulLoopO 8 s 0 false
  else strtoulLoopO 10 s 0 false

/-- Sign handling of `strtoul`: a leading '-' negates the magnitude modulo
2^32 (unless the magnitude overflowed, in which case ULONG_MAX stands). -/
def strtoulSigned (s : List Char) : Nat :=
  if s.headD ' ' = '-' then
    let p := strtoulBase0 (s.drop 1)
    if p.2 then ULONG_MAX else (4294967296 - p.1) % 4294967296
  else if s.headD ' ' = '+' then (strtoulBase0 (s.drop 1)).1
  else (strtoulBase0 s).1

/-- Modelled from the spec: libc `strtoul(str, nullptr, 0)` on the target's
32-bit `unsigned long` ("strtoul stops reading input when an invalid
character is discovered", per the source's comment). -/
def strtoul0 (s : List Char) : Nat :=
  strtoulSigned (s.dropWhile isSpaceChar)

/-- Modelled from the spec: the spec's "read leading digits, stop at first
non-digit" parse ("parsed by read leading digits, stop at first non-digit
semantics"); accumulator version. -/
def parseDigitsAcc : List Char → Nat → Nat
  | [], a => a
  | c :: rest, a =>
    if 48 ≤ c.toNat ∧ c.toNat ≤ 57 then parseDigitsAcc rest (a * 10 + (c.toNat - 48))
    else a

/-- Modelled from the spec: the spec's leading-decimal-digits parse. -/
def parseLeadingDigits (s : List Char) : Nat :=
  parseDigitsAcc s 0

/-! The embedded JsonTranslator functions, in source order. -/

/-- `JsonTranslator::createJsonPair`: `<identifier>"<value>",`. -/
def createJsonPair (valueIdentifier value : List Char) : List Char :=
  valueIdentifier ++ ['"'] ++ value ++ ['"', ',']

/-- `JsonTranslator::createJsonEndPair`: `<identifier>"<value>"}}`. -/
def createJsonEndPair (valueIdentifier value : List Char) : List Char :=
  valueIdentifier ++ ['"'] ++ value ++ ['"', '}', '}']

/-- `JsonTranslator::createEncryptedConnectionInfo`: header, argument-object
opener, then nonce, password, ownSK and peerSK fields.  The session keys are
deliberately exchanged: the caller's peer key goes under the ownSK label. -/
def createEncryptedConnectionInfo (infoHeader requestNonce authenticationPassword : List Char)
    (ownSessionKey peerSessionKey : Nat) : List Char :=
  infoHeader ++ ("\x7b\"arguments\":\x7b").toList
  ++ createJsonPair jsonNonce requestNonce
  ++ createJsonPair jsonPassword authenticationPassword
  ++ createJsonPair jsonOwnSessionKey (uint64ToString peerSessionKey)
  ++ createJsonEndPair jsonPeerSessionKey (uint64ToString ownSessionKey)

/-- `JsonTranslator::createEncryptionRequestIntro`: header and argument-object
opener, plus a duration field exactly when the header is the temporary
encryption request header. -/
def createEncryptionRequestIntro (requestHeader : List Char) (duration : Nat) : List Char :=
  requestHeader ++ ("\x7b\"arguments\":\x7b").toList
  ++ (if requestHeader = temporaryEncryptionRequestHeader then
        createJsonPair jsonDuration (uint32ToString duration)
      else [])

/-- `JsonTranslator::createEncryptionRequestEnding`: the final nonce field. -/
def createEncryptionRequestEnding (requestNonce : List Char) : List Char :=
  createJsonEndPair jsonNonce requestNonce

/-- `JsonTranslator::createEncryptionRequestHmacMessage`.  The ambient reads
of the local station/AP hardware addresses (`WiFi.macAddress`,
`WiFi.softAPmacAddress`, rendered by `TypeCast::macToString`) are modelled as
the explicit string parameters `staMacStr`/`apMacStr`, and the external
primitive `MeshCryptoInterface::createMeshHmac` as the function parameter
`createMeshHmac`. -/
def createEncryptionRequestHmacMessage
    (createMeshHmac : List Char → List Nat → Nat → List Char)
    (staMacStr apMacStr : List Char)
    (requestHeader requestNonce : List Char)
    (hashKey : List Nat) (hashKeyLength : Nat) (duration : Nat) : List Char :=
  let mainMessage :=
    createEncryptionRequestIntro requestHeader duration ++ createJsonPair jsonNonce requestNonce
  let requesterStaApMac := staMacStr ++ apMacStr
  let hmac := createMeshHmac (requesterStaApMac ++ mainMessage) hashKey hashKeyLength
  mainMessage ++ createJsonEndPair jsonHmac hmac

/-- `JsonTranslator::getStartIndex` (the callers use the default search start
index 0): position just past the identifier and the value's opening quote,
or the negative not-found result. -/
def getStartIndex (jsonString valueIdentifier : List Char) : Int :=
  let startIndex := indexOfFrom jsonString valueIdentifier 0
  if startIndex < 0 then startIndex else startIndex + valueIdentifier.length + 1

/-- `JsonTranslator::getEndIndex`: next comma, else next closing brace, minus
one. -/
def getEndIndex (jsonString : List Char) (searchStartIndex : Nat) : Int :=
  let endIndex := indexOfFrom jsonString [','] searchStartIndex
  let endIndex := if endIndex < 0 then indexOfFrom jsonString ['}'] searchStartIndex else endIndex
  endIndex - 1

/-- `JsonTranslator::getConnectionState`.  The out-parameter is modelled by
threading its prior value `result`. -/
def getConnectionState (jsonString result : List Char) : Bool × List Char :=
  let startIndex := indexOfFrom jsonString jsonConnectionState 0
  if startIndex < 0 then (false, result)
  else
    let endIndex := indexOfFrom jsonString ['}'] 0
    if endIndex < 0 then (false, result)
    else (true, substring jsonString startIndex.toNat (endIndex.toNat + 1))

/-- `JsonTranslator::getPassword`. -/
def getPassword (jsonString result : List Char) : Bool × List Char :=
  let startIndex := getStartIndex jsonString jsonPassword
  if startIndex < 0 then (false, result)
  else
    let endIndex := getEndIndex jsonString startIndex.toNat
    if endIndex < 0 then (false, result)
    else (true, substring jsonString startIndex.toNat endIndex.toNat)

/-- `JsonTranslator::getOwnSessionKey`. -/
def getOwnSessionKey (jsonString : List Char) (result : Nat) : Bool × Nat :=
  let startIndex := getStartIndex jsonString jsonOwnSessionKey
  if startIndex < 0 then (false, result)
  else
    let endIndex := getEndIndex jsonString startIndex.toNat
    if endIndex < 0 then (false, result)
    else (true, stringToUint64 (substring jsonString startIndex.toNat endIndex.toNat))

/-- `JsonTranslator::getPeerSessionKey`. -/
def getPeerSessionKey (jsonString : List Char) (result : Nat) : Bool × Nat :=
  let startIndex := getStartIndex jsonString jsonPeerSessionKey
  if startIndex < 0 then (false, result)
  else
    let endIndex := getEndIndex jsonString startIndex.toNat
    if endIndex < 0 then (false, result)
    else (true, stringToUint64 (substring jsonString startIndex.toNat endIndex.toNat))

/-- `JsonTranslator::getPeerStaMac`. -/
def getPeerStaMac (jsonString : List Char) (resultArray : List Nat) : Bool × List Nat :=
  let startIndex := getStartIndex jsonString jsonPeerStaMac
  if startIndex < 0 then (false, resultArray)
  else
    let endIndex := getEndIndex jsonString startIndex.toNat
    if endIndex < 0 ∨ endIndex - startIndex ≠ 12 then (false, resultArray)
    else (true, stringToMac (substring jsonString startIndex.toNat endIndex.toNat))

/-- `JsonTranslator::getPeerApMac`. -/
def getPeerApMac (jsonString : List Char) (resultArray : List Nat) : Bool × List Nat :=
  let startIndex := getStartIndex jsonString jsonPeerApMac
  if startIndex < 0 then (false, resultArray)
  else
    let endIndex := getEndIndex jsonString startIndex.toNat
    if endIndex < 0 ∨ endIndex - startIndex ≠ 12 then (false, resultArray)
    else (true, stringToMac (substring jsonString startIndex.toNat endIndex.toNat))

/-- `JsonTranslator::getDuration`. -/
def getDuration (jsonString : List Char) (result : Nat) : Bool × Nat :=
  let startIndex := getStartIndex jsonString jsonDuration
  if startIndex < 0 then (false, result)
  else (true, strtoul0 (substringFrom jsonString startIndex.toNat))

/-- `JsonTranslator::getNonce`. -/
def getNonce (jsonString result : List Char) : Bool × List Char :=
  let startIndex := getStartIndex jsonString jsonNonce
  if startIndex < 0 then (false, result)
  else
    let endIndex := getEndIndex jsonString startIndex.toNat
    if endIndex < 0 then (false, result)
    else (true, substring jsonString startIndex.toNat endIndex.toNat)

/-- `JsonTranslator::getHmac`. -/
def getHmac (jsonString result : List Char) : Bool × List Char :=
  let startIndex := getStartIndex jsonString jsonHmac
  if startIndex < 0 then (false, result)
  else
    let endIndex := getEndIndex jsonString startIndex.toNat
    if endIndex < 0 then (false, result)
    else (true, substring jsonString startIndex.toNat endIndex.toNat)

/-- `JsonTranslator::getDesync`. -/
def getDesync (jsonString : List Char) (result : Bool) : Bool × Bool :=
  let startIndex := getStartIndex jsonString jsonDesync
  if startIndex < 0 then (false, result)
  else (true, strtoul0 (substringFrom jsonString startIndex.toNat) != 0)

/-- `JsonTranslator::getUnsynchronizedMessageID`. -/
def getUnsynchronizedMessageID (jsonString : List Char) (result : Nat) : Bool × Nat :=
  let startIndex := getStartIndex jsonString jsonUnsynchronizedMessageID
  if startIndex < 0 then (false, result)
  else (true, strtoul0 (substringFrom jsonString startIndex.toNat))

/-- `JsonTranslator::getMeshMessageCount`.  The `assert(longResult <= 65535)`
is an unrecoverable abort, modelled by the `none` outcome; `some (b, v)`
models an ordinary return of `b` with out-parameter `v`. -/
def getMeshMessageCount (jsonString : List Char) (result : Nat) : Option (Bool × Nat) :=
  let startIndex := getStartIndex jsonString jsonMeshMessageCount
  if startIndex < 0 then some (false, result)
  else
    let longResult := strtoul0 (substringFrom jsonString startIndex.toNat)
    if longResult ≤ 65535 then some (true, longResult) else none

/-- `JsonTranslator::verifyEncryptionRequestHmac`.  The external primitive
`MeshCryptoInterface::verifyMeshHmac` is the function parameter
`verifyMeshHmac`; the requester MAC addresses are taken already rendered as
strings (the deterministic `TypeCast::macToString` of the byte arrays). -/
def verifyEncryptionRequestHmac (verifyMeshHmac : List Char → List Char → List Nat → Nat → Bool)
    (encryptionRequestHmacMessage : List Char)
    (requesterStaMacStr requesterApMacStr : List Char)
    (hashKey : List Nat) (hashKeyLength : Nat) : Bool :=
  let g := getHmac encryptionRequestHmacMessage []
  if g.1 then
    let hmacStartIndex := indexOfFrom encryptionRequestHmacMessage jsonHmac 0
    if hmacStartIndex < 0 then false
    else if g.2.length = 2 * SHA256_NATURAL_LENGTH then
      verifyMeshHmac
        (requesterStaMacStr ++ requesterApMacStr
          ++ substring encryptionRequestHmacMessage 0 hmacStartIndex.toNat)
        g.2 hashKey hashKeyLength
    else false
  else false

/-! Predicates used by the theorems. -/

/-- Text free of the delimiter characters of the wire grammar: no comma, no
closing brace, no double quote. -/
def CleanText (s : List Char) : Prop := ∀ c ∈ s, c ≠ ',' ∧ c ≠ '}' ∧ c ≠ '"'

instance (s : List Char) : Decidable (CleanText s) := by
  unfold CleanText; infer_instance

/-- No occurrence of `pat` anywhere in `s`. -/
def NoOcc (pat s : List Char) : Prop := ¬ pat <:+: s

instance (pat s : List Char) : Decidable (NoOcc pat s) := by
  unfold NoOcc; infer_instance

/-- No nonempty proper suffix of `pat` is a prefix of `pat` itself. -/
def Borderfree (pat : List Char) : Prop :=
  ∀ k, k < pat.length → 0 < k → ¬ pat.drop k <+: pat

instance (pat : List Char) : Decidable (Borderfree pat) := by
  unfold Borderfree; infer_instance

/-- No occurrence of `pat` can straddle the boundary between `a` and `b`:
for no split of `pat` is the left part a suffix of `a` while the right part
is a prefix of `b`. -/
def CrossFree (pat a b : List Char) : Prop :=
  ∀ k, k < pat.length → 0 < k → ¬ (pat.take k <:+ a ∧ pat.drop k <+: b)

/-- Value text in plain decimal form: a leading decimal digit, no octal/hex
prefix ambiguity (after a leading '0' no further digit and no 'x'/'X'), and
a leading-digit value within the 32-bit range. -/
def decimalValueFormB (v : List Char) : Bool :=
  match v with
  | [] => false
  | c :: rest =>
    decide (48 ≤ c.toNat ∧ c.toNat ≤ 57) &&
    decide (parseLeadingDigits v ≤ ULONG_MAX) &&
    (if c = '0' then
      match rest with
      | [] => true
      | c2 :: _ => !(decide (48 ≤ c2.toNat ∧ c2.toNat ≤ 57)) && !(c2 == 'x') && !(c2 == 'X')
     else true)

/-! Concrete wire-text segments of the composed messages, used to organise
the first-occurrence proofs. -/

/-- The argument-object opener emitted by the composers. -/
def kArgs : List Char := ("\x7b\"arguments\":\x7b").toList
/-- Opener up to and including the nonce value's opening quote. -/
def kOpenNonce : List Char := kArgs ++ jsonNonce ++ ['"']
/-- Separator between the nonce value and the password value. -/
def kSepPassword : List Char := ['"', ','] ++ jsonPassword ++ ['"']
/-- Closing quote plus comma after a mid-message value. -/
def kSep : List Char := ['"', ',']
/-- Duration identifier plus the value's opening quote. -/
def kDurOpen : List Char := jsonDuration ++ ['"']
/-- Separator between a value and the nonce field. -/
def kSepNonce : List Char := ['"', ','] ++ jsonNonce ++ ['"']
/-- Separator between the password value and the ownSK field. -/
def kSepOwn : List Char := ['"', ','] ++ jsonOwnSessionKey ++ ['"']
/-- Final-field closer. -/
def kEnd : List Char := ['"', '}', '}']
/-- Weight 16^(digit count of n), used to state the hex round-trip. -/
def hexWeight (n : Nat) : Nat :=
  if n = 0 then 1 else 16 * hexWeight (n / 16)
  decreasing_by exact Nat.div_lt_self (Nat.pos_of_ne_zero (by assumption)) (by omega)

/-- Hexadecimal digit characters as produced by `uint64ToString`. -/
def hexDigitCharP (c : Char) : Prop :=
  (48 ≤ c.toNat ∧ c.toNat ≤ 57) ∨ (65 ≤ c.toNat ∧ c.toNat ≤ 70)
/-- Decimal digit characters as produced by `uint32ToString`. -/
def decDigitCharP (c : Char) : Prop := 48 ≤ c.toNat ∧ c.toNat ≤ 57

instance (c : Char) : Decidable (hexDigitCharP c) := by unfold hexDigitCharP; infer_instance
instance (c : Char) : Decidable (decDigitCharP c) := by unfold decDigitCharP; infer_instance

/-! ### Generic facts about the search primitives -/

theorem isPrefixOf_iff (pat l : List Char) : pat.isPrefixOf l = true ↔ pat <+: l := by
  exact ( List.isPrefixOf_iff_prefix)

theorem infix_iff_exists_drop (pat s : List Char) :
    pat <:+: s ↔ ∃ i, pat <+: s.drop i := by
  constructor
  · rintro ⟨t, u, rfl⟩
    refine ⟨t.length, ?_⟩
    rw [List.append_assoc, List.drop_left]
    exact ⟨u, rfl⟩
  · rintro ⟨i, u, hu⟩
    refine ⟨s.take i, u, ?_⟩
    rw [List.append_assoc, hu, List.take_append_drop]

theorem prefix_getElem (t s : List Char) (h : t <+: s) (i : Nat) (hi : i < t.length) :
    s[i]? = t[i]? := by
  obtain ⟨r, rfl⟩ := h
  exact List.getElem?_append_left hi

theorem prefix_take_mono (t s : List Char) (h : t <+: s) (m : Nat) :
    t.take m <+: s.take m := by
  obtain ⟨r, rfl⟩ := h
  rw [List.take_append_eq_append_take]
  exact ⟨r.take (m - t.length), rfl⟩

theorem prefix_append_restrict (t u v : List Char) (h : t <+: u ++ v)
    (hl : t.length ≤ u.length) : t <+: u := by
  obtain ⟨r, hr⟩ := h
  have h1 : (t ++ r).take t.length = (u ++ v).take t.length := by rw [hr]
  rw [List.take_left, List.take_append_eq_append_take, Nat.sub_eq_zero_of_le hl,
    List.take_zero, List.append_nil] at h1
  exact h1 ▸ ⟨u.drop t.length, by rw [List.take_append_drop]⟩

theorem suffix_append_restrict (t u v : List Char) (h : t <:+ u ++ v)
    (hl : t.length ≤ v.length) : t <:+ v := by
  obtain ⟨r, hr⟩ := h
  have hlen : (u ++ v).length = r.length + t.length := by rw [← hr, List.length_append]
  have hrlen : u.length ≤ r.length := by
    rw [List.length_append] at hlen; omega
  have h1 : (r ++ t).drop r.length = (u ++ v).drop r.length := by rw [hr]
  rw [List.drop_left, List.drop_append_eq_append_drop,
    List.drop_eq_nil_of_le hrlen, List.nil_append] at h1
  exact h1 ▸ (List.drop_suffix _ _)

theorem crossing_cases (pat a b : List Char) (i : Nat) (hi : i < a.length)
    (h : pat <+: (a ++ b).drop i) :
    pat <:+: a ∨ ∃ k, 0 < k ∧ k < pat.length ∧ pat.take k <:+ a ∧ pat.drop k <+: b := by
  have hd : (a ++ b).drop i = a.drop i ++ b := by
    rw [List.drop_append_eq_append_drop, Nat.sub_eq_zero_of_le (Nat.le_of_lt hi),
      List.drop_zero]
  rw [hd] at h
  by_cases hlen : pat.length ≤ (a.drop i).length
  · left
    have := prefix_append_restrict pat (a.drop i) b h hlen
    obtain ⟨r, hr⟩ := this
    exact ⟨a.take i, r, by rw [List.append_assoc, hr, List.take_append_drop]⟩
  · right
    push_neg at hlen
    set m := (a.drop i).length with hm
    have hmpos : 0 < m := by
      rw [hm, List.length_drop]; omega
    obtain ⟨r, hr⟩ := h
    refine ⟨m, hmpos, hlen, ?_, ?_⟩
    · have h1 : (pat ++ r).take m = (a.drop i ++ b).take m := by rw [hr]
      rw [List.take_append_eq_append_take, Nat.sub_eq_zero_of_le (Nat.le_of_lt hlen),
        List.take_zero, List.append_nil, List.take_append_eq_append_take,
        Nat.sub_eq_zero_of_le (Nat.le_of_eq hm.symm), List.take_zero, List.append_nil,
        List.take_of_length_le (Nat.le_of_eq hm)] at h1
      rw [h1]
      exact (List.drop_suffix i a)
    · have h1 : (pat ++ r).drop m = (a.drop i ++ b).drop m := by rw [hr]
      rw [List.drop_append_eq_append_drop, Nat.sub_eq_zero_of_le (Nat.le_of_lt hlen),
        List.drop_zero, List.drop_append_eq_append_drop,
        List.drop_eq_nil_of_le (Nat.le_of_eq hm.symm), List.nil_append,
        Nat.sub_eq_zero_of_le (Nat.le_of_eq hm), List.drop_zero] at h1
      exact ⟨r, h1⟩

theorem noOcc_append (pat a b : List Char) (ha : NoOcc pat a) (hb : NoOcc pat b)
    (hc : CrossFree pat a b) : NoOcc pat (a ++ b) := by
  intro hocc
  obtain ⟨i, hi⟩ := (infix_iff_exists_drop pat (a ++ b)).mp hocc
  by_cases hlt : i < a.length
  · rcases crossing_cases pat a b i hlt hi with h | ⟨k, hk0, hklt, hsuf, hpre⟩
    · exact ha h
    · exact hc k hklt hk0 ⟨hsuf, hpre⟩
  · push_neg at hlt
    have hd : (a ++ b).drop i = b.drop (i - a.length) := by
      rw [List.drop_append_eq_append_drop, List.drop_eq_nil_of_le hlt, List.nil_append]
    rw [hd] at hi
    exact hb ((infix_iff_exists_drop pat b).mpr ⟨i - a.length, hi⟩)

theorem noOcc_of_forall_ne (pat s : List Char) (c : Char) (hc : c ∈ pat)
    (hs : ∀ x ∈ s, x ≠ c) : NoOcc pat s := by
  intro hocc
  exact hs c (hocc.sublist.subset hc) rfl

theorem crossFree_of_right (pat a b : List Char)
    (h : ∀ k, k < pat.length → 0 < k → ¬ pat.drop k <+: b) : CrossFree pat a b := by
  intro k hklt hk0 ⟨_, hpre⟩
  exact h k hklt hk0 hpre

theorem crossFree_of_take2 (pat a c r : List Char) (h2 : 2 ≤ c.length)
    (hk : ∀ k, k < pat.length → 0 < k → ¬ (pat.drop k).take 2 <+: c.take 2) :
    CrossFree pat a (c ++ r) := by
  intro k hklt hk0 ⟨_, hpre⟩
  have h1 : (pat.drop k).take 2 <+: (c ++ r).take 2 := prefix_take_mono _ _ hpre 2
  rw [List.take_append_eq_append_take, Nat.sub_eq_zero_of_le h2, List.take_zero,
    List.append_nil] at h1
  exact hk k hklt hk0 h1

theorem not_prefix_quote_colon (t u v : List Char) (q : Nat)
    (htq : t[q]? = some '"') (htc : t[q + 1]? = some ':')
    (hu : ∀ x ∈ u, x ≠ '"')
    (hv : ∀ j, j ≤ q → v[j]? = some '"' → v[j + 1]? ≠ some ':') :
    ¬ t <+: u ++ v := by
  intro h
  have hql : q < t.length := ((List.getElem?_eq_some.mp htq).1)
  have hcl : q + 1 < t.length := ((List.getElem?_eq_some.mp htc).1)
  have h1 : (u ++ v)[q]? = some '"' := by rw [prefix_getElem t _ h q hql]; exact htq
  have h2 : (u ++ v)[q + 1]? = some ':' := by
    rw [prefix_getElem t _ h (q + 1) hcl]; exact htc
  by_cases hlt : q < u.length
  · rw [List.getElem?_append_left hlt] at h1
    exact hu '"' (List.getElem?_mem h1) rfl
  · push_neg at hlt
    rw [List.getElem?_append_right hlt] at h1
    rw [List.getElem?_append_right (Nat.le_succ_of_le hlt)] at h2
    have hj : q + 1 - u.length = (q - u.length) + 1 := by omega
    rw [hj] at h2
    exact hv (q - u.length) (by omega) h1 h2

theorem findSub_eq_some (pat s : List Char) (n : Nat) (hne : pat ≠ [])
    (hocc : pat <+: s.drop n) (hbefore : ∀ i, i < n → ¬ pat <+: s.drop i) :
    findSub pat s = some n := by
  induction s generalizing n with
  | nil =>
    rw [List.drop_nil] at hocc
    exact absurd (List.prefix_nil.mp hocc) hne
  | cons c rest ih =>
    cases n with
    | zero =>
      rw [List.drop_zero] at hocc
      unfold findSub
      rw [if_pos ((isPrefixOf_iff pat _).mpr hocc)]
    | succ n' =>
      have h0 : ¬ pat <+: (c :: rest) := by
        have := hbefore 0 (Nat.succ_pos n')
        rwa [List.drop_zero] at this
      unfold findSub
      rw [if_neg (fun hb => h0 ((isPrefixOf_iff pat _).mp hb))]
      have hocc' : pat <+: rest.drop n' := hocc
      have hbefore' : ∀ i, i < n' → ¬ pat <+: rest.drop i := by
        intro i hi
        exact hbefore (i + 1) (by omega)
      rw [ih n' hocc' hbefore']
      rfl

theorem findSub_eq_none (pat s : List Char) (h : ∀ i, ¬ pat <+: s.drop i) :
    findSub pat s = none := by
  induction s with
  | nil => rfl
  | cons c rest ih =>
    unfold findSub
    have h0 : ¬ pat <+: (c :: rest) := by have := h 0; rwa [List.drop_zero] at this
    rw [if_neg (fun hb => h0 ((isPrefixOf_iff pat _).mp hb))]
    rw [ih (fun i => h (i + 1))]
    rfl

theorem findSub_some_occurs (pat s : List Char) (j : Nat) (h : findSub pat s = some j) :
    pat <+: s.drop j := by
  induction s generalizing j with
  | nil => simp [findSub] at h
  | cons c rest ih =>
    unfold findSub at h
    by_cases hp : pat.isPrefixOf (c :: rest)
    · rw [if_pos hp] at h
      cases h
      rw [List.drop_zero]
      exact (isPrefixOf_iff pat _).mp hp
    · rw [if_neg hp] at h
      cases hfs : findSub pat rest with
      | none => rw [hfs] at h; simp at h
      | some j' =>
        rw [hfs] at h
        simp at h
        subst h
        exact ih j' hfs

theorem findSub_none_noOcc (pat s : List Char) (hne : pat ≠ []) (h : findSub pat s = none)
    (i : Nat) : ¬ pat <+: s.drop i := by
  induction s generalizing i with
  | nil =>
    intro hp
    rw [List.drop_nil, List.prefix_nil] at hp
    exact hne hp
  | cons c rest ih =>
    unfold findSub at h
    by_cases hp : pat.isPrefixOf (c :: rest)
    · rw [if_pos hp] at h; exact Option.noConfusion h
    · rw [if_neg hp] at h
      cases i with
      | zero =>
        rw [List.drop_zero]
        intro hpre
        exact hp ((isPrefixOf_iff pat _).mpr hpre)
      | succ i' =>
        cases hfs : findSub pat rest with
        | none => exact ih hfs i'
        | some j => rw [hfs] at h; simp at h

/-! ### Wrappers for `indexOfFrom` -/

theorem indexOfFrom_zero_eq (s pat : List Char) (n : Nat) (hne : pat ≠ [])
    (hocc : pat <+: s.drop n) (hbefore : ∀ i, i < n → ¬ pat <+: s.drop i) :
    indexOfFrom s pat 0 = (n : Int) := by
  unfold indexOfFrom
  rw [List.drop_zero, findSub_eq_some pat s n hne hocc hbefore]
  simp

theorem indexOfFrom_shift (s pat : List Char) (start j : Nat)
    (h : findSub pat (s.drop start) = some j) :
    indexOfFrom s pat start = ((start + j : Nat) : Int) := by
  unfold indexOfFrom
  rw [h]

theorem indexOfFrom_shift_none (s pat : List Char) (start : Nat)
    (h : findSub pat (s.drop start) = none) : indexOfFrom s pat start = -1 := by
  unfold indexOfFrom
  rw [h]

theorem singleton_prefix_iff (c : Char) (l : List Char) : [c] <+: l ↔ l[0]? = some c := by
  constructor
  · rintro ⟨t, rfl⟩
    simp
  · intro h
    cases l with
    | nil => simp at h
    | cons a r =>
      simp at h
      exact h ▸ ⟨r, rfl⟩

theorem findSub_char_none_iff (c : Char) (l : List Char) :
    findSub [c] l = none ↔ c ∉ l := by
  constructor
  · intro h hmem
    obtain ⟨i, hi⟩ := List.mem_iff_getElem?.mp hmem
    have hp : [c] <+: l.drop i := by
      rw [singleton_prefix_iff, List.getElem?_drop, Nat.add_zero]
      exact hi
    exact findSub_none_noOcc [c] l (by simp) h i hp
  · intro h
    apply findSub_eq_none
    intro i hp
    rw [singleton_prefix_iff, List.getElem?_drop, Nat.add_zero] at hp
    exact h (List.getElem?_mem hp)

theorem findSub_singleton (c : Char) (u v : List Char) (hc : c ∉ u) :
    findSub [c] (u ++ c :: v) = some u.length := by
  apply findSub_eq_some _ _ _ (by simp)
  · rw [List.drop_left]
    exact ⟨v, rfl⟩
  · intro i hi hp
    rw [singleton_prefix_iff, List.getElem?_drop, Nat.add_zero,
      List.getElem?_append_left (by omega)] at hp
    exact hc (List.getElem?_mem hp)

theorem firstOcc_concat (pat A B : List Char) (hne : pat ≠ []) (hbf : Borderfree pat)
    (hA : NoOcc pat A) : indexOfFrom (A ++ pat ++ B) pat 0 = (A.length : Int) := by
  apply indexOfFrom_zero_eq _ _ _ hne
  · rw [List.append_assoc, List.drop_left]
    exact ⟨B, rfl⟩
  · intro i hi hp
    rw [List.append_assoc] at hp
    rcases crossing_cases pat A (pat ++ B) i hi hp with h | ⟨k, hk0, hklt, _, hpre⟩
    · exact hA h
    · have h2 : pat.drop k <+: pat :=
        prefix_append_restrict _ pat B hpre (by rw [List.length_drop]; omega)
      exact hbf k hklt hk0 h2

/-! ### Slice extraction -/

theorem drop_concat_len (x y : List Char) (n : Nat) (hn : n = x.length) :
    (x ++ y).drop n = y := by
  subst hn
  exact List.drop_left x y

theorem take_concat_len (x y : List Char) (n : Nat) (hn : n = x.length) :
    (x ++ y).take n = x := by
  subst hn
  exact List.take_left x y

theorem slice_exact (pre mid post : List Char) (l r : Nat) (hl : l = pre.length)
    (hr : r = pre.length + mid.length) :
    substring (pre ++ (mid ++ post)) l r = mid := by
  subst hl hr
  unfold substring
  rw [min_eq_left (by omega), max_eq_right (by omega)]
  rw [List.take_append_eq_append_take, List.take_of_length_le (by omega),
    Nat.add_sub_cancel_left, take_concat_len mid post _ rfl, drop_concat_len _ _ _ rfl]

/-! ### Extraction of a properly embedded field

`getField_mid` covers a field followed by a comma-separated successor,
`getField_end` covers the final field of a message. -/

theorem getStartIndex_eq (s pat : List Char) (n : Nat) (h : indexOfFrom s pat 0 = (n : Int)) :
    getStartIndex s pat = ((n + pat.length + 1 : Nat) : Int) := by
  simp only [getStartIndex]
  rw [h, if_neg (by omega)]
  push_cast
  ring

theorem getEndIndex_comma (s : List Char) (start j : Nat)
    (h : findSub [','] (s.drop start) = some j) :
    getEndIndex s start = ((start + j : Nat) : Int) - 1 := by
  simp only [getEndIndex]
  rw [indexOfFrom_shift s [','] start j h, if_neg (by omega)]

theorem getEndIndex_brace (s : List Char) (start j : Nat)
    (hc : findSub [','] (s.drop start) = none)
    (h : findSub ['}'] (s.drop start) = some j) :
    getEndIndex s start = ((start + j : Nat) : Int) - 1 := by
  simp only [getEndIndex]
  rw [indexOfFrom_shift_none s [','] start hc, if_pos (by omega),
    indexOfFrom_shift s ['}'] start j h]

theorem getField_mid (pat A val rest : List Char) (hne : pat ≠ []) (hbf : Borderfree pat)
    (hA : NoOcc pat A) (hval : ',' ∉ val) :
    getStartIndex (A ++ pat ++ '"' :: (val ++ '"' :: ',' :: rest)) pat
      = ((A.length + pat.length + 1 : Nat) : Int) ∧
    getEndIndex (A ++ pat ++ '"' :: (val ++ '"' :: ',' :: rest))
        (A.length + pat.length + 1)
      = ((A.length + pat.length + 1 + val.length : Nat) : Int) ∧
    substring (A ++ pat ++ '"' :: (val ++ '"' :: ',' :: rest))
        (A.length + pat.length + 1) (A.length + pat.length + 1 + val.length) = val := by
  set s := A ++ pat ++ '"' :: (val ++ '"' :: ',' :: rest) with hs
  have hregroup : s = (A ++ pat ++ ['"']) ++ (val ++ '"' :: ',' :: rest) := by
    simp [hs, List.append_assoc]
  have hprelen : (A ++ pat ++ ['"']).length = A.length + pat.length + 1 := by
    simp [List.length_append]
    omega
  have hdrop : s.drop (A.length + pat.length + 1) = val ++ '"' :: ',' :: rest := by
    rw [hregroup]
    exact drop_concat_len _ _ _ hprelen.symm
  have hfirst : indexOfFrom s pat 0 = (A.length : Int) := by
    rw [hs]
    exact firstOcc_concat pat A _ hne hbf hA
  have hcomma : findSub [','] (s.drop (A.length + pat.length + 1)) = some (val.length + 1) := by
    rw [hdrop]
    have hre : val ++ '"' :: ',' :: rest = (val ++ ['"']) ++ ',' :: rest := by
      simp [List.append_assoc]
    rw [hre]
    have hnc : ',' ∉ val ++ ['"'] := by
      intro hmem
      rcases List.mem_append.mp hmem with h | h
      · exact hval h
      · simp at h
    have := findSub_singleton ',' (val ++ ['"']) rest hnc
    rwa [List.length_append, List.length_singleton] at this
  refine ⟨getStartIndex_eq s pat A.length hfirst, ?_, ?_⟩
  · rw [getEndIndex_comma s _ _ hcomma]
    push_cast
    ring
  · rw [hregroup]
    exact slice_exact _ _ _ _ _ hprelen.symm (by rw [hprelen])

theorem getField_end (pat A val : List Char) (hne : pat ≠ []) (hbf : Borderfree pat)
    (hA : NoOcc pat A) (hval : ',' ∉ val) (hval2 : '}' ∉ val) :
    getStartIndex (A ++ pat ++ '"' :: (val ++ '"' :: '}' :: '}' :: [])) pat
      = ((A.length + pat.length + 1 : Nat) : Int) ∧
    getEndIndex (A ++ pat ++ '"' :: (val ++ '"' :: '}' :: '}' :: []))
        (A.length + pat.length + 1)
      = ((A.length + pat.length + 1 + val.length : Nat) : Int) ∧
    substring (A ++ pat ++ '"' :: (val ++ '"' :: '}' :: '}' :: []))
        (A.length + pat.length + 1) (A.length + pat.length + 1 + val.length) = val := by
  set s := A ++ pat ++ '"' :: (val ++ '"' :: '}' :: '}' :: []) with hs
  have hregroup : s = (A ++ pat ++ ['"']) ++ (val ++ '"' :: '}' :: '}' :: []) := by
    simp [hs, List.append_assoc]
  have hprelen : (A ++ pat ++ ['"']).length = A.length + pat.length + 1 := by
    simp [List.length_append]
    omega
  have hdrop : s.drop (A.length + pat.length + 1) = val ++ '"' :: '}' :: '}' :: [] := by
    rw [hregroup]
    exact drop_concat_len _ _ _ hprelen.symm
  have hfirst : indexOfFrom s pat 0 = (A.length : Int) := by
    rw [hs]
    exact firstOcc_concat pat A _ hne hbf hA
  have hcomma : findSub [','] (s.drop (A.length + pat.length + 1)) = none := by
    rw [hdrop, findSub_char_none_iff]
    intro hmem
    rcases List.mem_append.mp hmem with h | h
    · exact hval h
    · simp at h
  have hbrace : findSub ['}'] (s.drop (A.length + pat.length + 1)) = some (val.length + 1) := by
    rw [hdrop]
    have hre : val ++ '"' :: '}' :: '}' :: [] = (val ++ ['"']) ++ '}' :: ['}'] := by
      simp [List.append_assoc]
    rw [hre]
    have hnb : '}' ∉ val ++ ['"'] := by
      intro hmem
      rcases List.mem_append.mp hmem with h | h
      · exact hval2 h
      · simp at h
    have := findSub_singleton '}' (val ++ ['"']) ['}'] hnb
    rwa [List.length_append, List.length_singleton] at this
  refine ⟨getStartIndex_eq s pat A.length hfirst, ?_, ?_⟩
  · rw [getEndIndex_brace s _ _ hcomma hbrace]
    push_cast
    ring
  · rw [hregroup]
    exact slice_exact _ _ _ _ _ hprelen.symm (by rw [hprelen])

/-! ### Conversion collaborators: digit classes and round trips -/

theorem toNat_ofNat_small (k : Nat) (hk : k < 256) : (Char.ofNat k).toNat = k := by
  unfold Char.ofNat
  rw [dif_pos (by constructor; omega)]
  simp [Char.toNat, Char.ofNatAux, UInt32.toNat]

theorem hexVal_hexChar (d : Nat) (h : d < 16) : hexVal (hexChar d) = d := by
  unfold hexVal hexChar
  by_cases h10 : d < 10
  · rw [if_pos h10, toNat_ofNat_small _ (by omega), if_pos (by omega)]
    omega
  · rw [if_neg h10, toNat_ofNat_small _ (by omega), if_neg (by omega), if_pos (by omega)]
    omega

theorem hexChar_hexP (d : Nat) (h : d < 16) : hexDigitCharP (hexChar d) := by
  unfold hexDigitCharP hexChar
  by_cases h10 : d < 10
  · rw [if_pos h10, toNat_ofNat_small _ (by omega)]
    omega
  · rw [if_neg h10, toNat_ofNat_small _ (by omega)]
    omega

theorem toHexAux_mem (fuel : Nat) :
    ∀ n acc c, c ∈ toHexAux fuel n acc → hexDigitCharP c ∨ c ∈ acc := by
  induction fuel with
  | zero =>
    intro n acc c hc
    exact Or.inr hc
  | succ fuel ih =>
    intro n acc c hc
    by_cases h0 : n = 0
    · subst h0
      unfold toHexAux at hc
      rw [if_pos rfl] at hc
      exact Or.inr hc
    · unfold toHexAux at hc
      rw [if_neg h0] at hc
      rcases ih (n / 16) _ c hc with h | h
      · exact Or.inl h
      · rcases List.mem_cons.mp h with h | h
        · exact Or.inl (h ▸ hexChar_hexP _ (Nat.mod_lt _ (by omega)))
        · exact Or.inr h

theorem uint64ToString_hexP (n : Nat) : ∀ c ∈ uint64ToString n, hexDigitCharP c := by
  intro c hc
  unfold uint64ToString at hc
  by_cases h0 : n = 0
  · rw [if_pos h0] at hc
    simp at hc
    subst hc
    decide
  · rw [if_neg h0] at hc
    rcases toHexAux_mem n n [] c hc with h | h
    · exact h
    · simp at h

theorem toHexAux_length (fuel : Nat) :
    ∀ n acc, acc.length ≤ (toHexAux fuel n acc).length := by
  induction fuel with
  | zero =>
    intro n acc
    exact Nat.le_refl _
  | succ fuel ih =>
    intro n acc
    by_cases h0 : n = 0
    · subst h0
      unfold toHexAux
      rw [if_pos rfl]
    · unfold toHexAux
      rw [if_neg h0]
      have := ih (n / 16) (hexChar (n % 16) :: acc)
      simp at this
      omega

theorem uint64ToString_ne_nil (n : Nat) : uint64ToString n ≠ [] := by
  unfold uint64ToString
  by_cases h0 : n = 0
  · rw [if_pos h0]
    simp
  · rw [if_neg h0]
    intro hnil
    cases hf : n with
    | zero => exact h0 hf
    | succ m =>
      rw [hf] at hnil
      unfold toHexAux at hnil
      rw [if_neg (by omega)] at hnil
      have h1 := toHexAux_length m ((m + 1) / 16) (hexChar ((m + 1) % 16) :: [])
      rw [hnil] at h1
      simp at h1

theorem parseHexFold_toHexAux (fuel : Nat) :
    ∀ n acc v, n ≤ fuel →
      parseHexFold (toHexAux fuel n acc) v = parseHexFold acc (v * hexWeight n + n) := by
  induction fuel with
  | zero =>
    intro n acc v hn
    have h0 : n = 0 := by omega
    subst h0
    unfold hexWeight
    simp [toHexAux]
  | succ fuel ih =>
    intro n acc v hn
    by_cases h0 : n = 0
    · subst h0
      unfold toHexAux hexWeight
      rw [if_pos rfl, if_pos rfl]
      simp
    · unfold toHexAux hexWeight
      rw [if_neg h0, if_neg h0]
      have hdiv : n / 16 ≤ fuel := by
        have := Nat.div_lt_self (Nat.pos_of_ne_zero h0) (show 1 < 16 by omega)
        omega
      rw [ih (n / 16) _ v hdiv]
      show parseHexFold _ _ = _
      rw [parseHexFold]
      rw [hexVal_hexChar _ (Nat.mod_lt _ (by omega))]
      congr 1
      have h16 : 16 * (n / 16) + n % 16 = n := Nat.div_add_mod n 16
      calc (v * hexWeight (n / 16) + n / 16) * 16 + n % 16
          = v * (16 * hexWeight (n / 16)) + (16 * (n / 16) + n % 16) := by ring
        _ = v * (16 * hexWeight (n / 16)) + n := by rw [h16]

theorem stringToUint64_uint64ToString (n : Nat) (h : n < 18446744073709551616) :
    stringToUint64 (uint64ToString n) = n := by
  unfold stringToUint64 uint64ToString
  by_cases h0 : n = 0
  · subst h0
    rw [if_pos rfl]
    decide
  · rw [if_neg h0, parseHexFold_toHexAux n n [] 0 (Nat.le_refl n)]
    show (0 * hexWeight n + n) % 18446744073709551616 = n
    rw [Nat.zero_mul, Nat.zero_add]
    exact Nat.mod_eq_of_lt h

theorem toDecAux_mem (fuel : Nat) :
    ∀ n acc c, c ∈ toDecAux fuel n acc → decDigitCharP c ∨ c ∈ acc := by
  induction fuel with
  | zero =>
    intro n acc c hc
    exact Or.inr hc
  | succ fuel ih =>
    intro n acc c hc
    by_cases h0 : n = 0
    · subst h0
      unfold toDecAux at hc
      rw [if_pos rfl] at hc
      exact Or.inr hc
    · unfold toDecAux at hc
      rw [if_neg h0] at hc
      rcases ih (n / 10) _ c hc with h | h
      · exact Or.inl h
      · rcases List.mem_cons.mp h with h | h
        · left
          unfold decDigitCharP
          rw [h, toNat_ofNat_small _ (by have := Nat.mod_lt n (show 0 < 10 by omega); omega)]
          have := Nat.mod_lt n (show 0 < 10 by omega)
          omega
        · exact Or.inr h

theorem uint32ToString_decP (n : Nat) : ∀ c ∈ uint32ToString n, decDigitCharP c := by
  intro c hc
  unfold uint32ToString at hc
  by_cases h0 : n = 0
  · rw [if_pos h0] at hc
    simp at hc
    subst hc
    decide
  · rw [if_neg h0] at hc
    rcases toDecAux_mem n n [] c hc with h | h
    · exact h
    · simp at h

theorem toDecAux_length (fuel : Nat) :
    ∀ n acc : _, (acc : List Char).length ≤ (toDecAux fuel n acc).length := by
  induction fuel with
  | zero =>
    intro n acc
    exact Nat.le_refl _
  | succ fuel ih =>
    intro n acc
    by_cases h0 : n = 0
    · subst h0
      unfold toDecAux
      rw [if_pos rfl]
    · unfold toDecAux
      rw [if_neg h0]
      have := ih (n / 10) (Char.ofNat (48 + n % 10) :: acc)
      simp at this
      omega

theorem uint32ToString_ne_nil (n : Nat) : uint32ToString n ≠ [] := by
  unfold uint32ToString
  by_cases h0 : n = 0
  · rw [if_pos h0]
    simp
  · rw [if_neg h0]
    intro hnil
    cases hf : n with
    | zero => exact h0 hf
    | succ m =>
      rw [hf] at hnil
      unfold toDecAux at hnil
      rw [if_neg (by omega)] at hnil
      have h1 := toDecAux_length m ((m + 1) / 10) (Char.ofNat (48 + (m + 1) % 10) :: [])
      rw [hnil] at h1
      simp at h1

theorem hexP_excludes (c : Char) (h : hexDigitCharP c) :
    c ≠ ',' ∧ c ≠ '}' ∧ c ≠ '"' ∧ c ≠ 'p' := by
  unfold hexDigitCharP at h
  refine ⟨?_, ?_, ?_, ?_⟩ <;> intro he <;> subst he <;> revert h <;> decide

theorem decP_excludes (c : Char) (h : decDigitCharP c) :
    c ≠ ',' ∧ c ≠ '}' ∧ c ≠ '"' ∧ c ≠ 'h' := by
  unfold decDigitCharP at h
  refine ⟨?_, ?_, ?_, ?_⟩ <;> intro he <;> subst he <;> revert h <;> decide

/-! ### Identifier presence and `getStartIndex` -/

theorem indexOfFrom_zero_nonneg_iff (s pat : List Char) (hne : pat ≠ []) :
    0 ≤ indexOfFrom s pat 0 ↔ pat <:+: s := by
  cases h : findSub pat (s.drop 0) with
  | none =>
    rw [indexOfFrom_shift_none s pat 0 h]
    rw [List.drop_zero] at h
    constructor
    · intro hge
      exact absurd hge (by decide)
    · intro hocc
      exfalso
      obtain ⟨i, hi⟩ := (infix_iff_exists_drop pat s).mp hocc
      exact findSub_none_noOcc pat s hne h i hi
  | some j =>
    rw [indexOfFrom_shift s pat 0 j h]
    rw [List.drop_zero] at h
    constructor
    · intro _
      exact (infix_iff_exists_drop pat s).mpr ⟨j, findSub_some_occurs pat s j h⟩
    · intro _
      omega

theorem indexOfFrom_zero_neg_iff (s pat : List Char) (hne : pat ≠ []) :
    indexOfFrom s pat 0 < 0 ↔ ¬ pat <:+: s := by
  have h := indexOfFrom_zero_nonneg_iff s pat hne
  constructor
  · intro hlt hocc
    have := h.mpr hocc
    omega
  · intro hno
    by_contra hge
    push_neg at hge
    exact hno (h.mp hge)

theorem getStartIndex_neg_iff (s pat : List Char) (hne : pat ≠ []) :
    getStartIndex s pat < 0 ↔ ¬ pat <:+: s := by
  unfold getStartIndex
  by_cases h : indexOfFrom s pat 0 < 0
  · rw [if_pos h]
    exact ⟨fun _ => (indexOfFrom_zero_neg_iff s pat hne).mp h, fun _ => h⟩
  · rw [if_neg h]
    push_neg at h
    constructor
    · intro hlt
      exfalso
      omega
    · intro hno
      exfalso
      exact hno ((indexOfFrom_zero_nonneg_iff s pat hne).mp h)

theorem getStartIndex_neg_of_absent (s pat : List Char) (hne : pat ≠ [])
    (h : ¬ pat <:+: s) : getStartIndex s pat < 0 :=
  (getStartIndex_neg_iff s pat hne).mpr h

theorem getStartIndex_nonneg_of_present (s pat : List Char) (hne : pat ≠ [])
    (h : pat <:+: s) : 0 ≤ getStartIndex s pat := by
  have hiff := getStartIndex_neg_iff s pat hne
  by_contra hlt
  push_neg at hlt
  exact (hiff.mp hlt) h

/-! ### The `strtoul` bridge to the spec's leading-digit parse -/

theorem digitValInBase_digit (base : Nat) (c : Char) (h1 : 48 ≤ c.toNat)
    (h2 : c.toNat ≤ 57) (h3 : c.toNat - 48 < base) :
    digitValInBase base c = some (c.toNat - 48) := by
  unfold digitValInBase
  rw [if_pos ⟨h1, h2⟩, if_pos h3]

theorem digitValInBase_nondec (base : Nat) (c : Char) (hb : base ≤ 10)
    (h : ¬ (48 ≤ c.toNat ∧ c.toNat ≤ 57)) : digitValInBase base c = none := by
  unfold digitValInBase
  rw [if_neg h]
  by_cases h2 : 65 ≤ c.toNat ∧ c.toNat ≤ 90
  · rw [if_pos h2, if_neg (by omega)]
  · rw [if_neg h2]
    by_cases h3 : 97 ≤ c.toNat ∧ c.toNat ≤ 122
    · rw [if_pos h3, if_neg (by omega)]
    · rw [if_neg h3]

theorem parseDigitsAcc_mono (s : List Char) : ∀ a, a ≤ parseDigitsAcc s a := by
  induction s with
  | nil =>
    intro a
    unfold parseDigitsAcc
    omega
  | cons c rest ih =>
    intro a
    unfold parseDigitsAcc
    by_cases hd : 48 ≤ c.toNat ∧ c.toNat ≤ 57
    · rw [if_pos hd]
      have := ih (a * 10 + (c.toNat - 48))
      omega
    · rw [if_neg hd]

theorem strtoulLoopO_ten (s : List Char) : ∀ acc, parseDigitsAcc s acc ≤ ULONG_MAX →
    strtoulLoopO 10 s acc false = (parseDigitsAcc s acc, false) := by
  induction s with
  | nil =>
    intro acc _
    rfl
  | cons c rest ih =>
    intro acc hle
    by_cases hd : 48 ≤ c.toNat ∧ c.toNat ≤ 57
    · have hdv : digitValInBase 10 c = some (c.toNat - 48) :=
        digitValInBase_digit 10 c hd.1 hd.2 (by omega)
      have hstep : parseDigitsAcc (c :: rest) acc
          = parseDigitsAcc rest (acc * 10 + (c.toNat - 48)) := by
        conv_lhs => unfold parseDigitsAcc
        rw [if_pos hd]
      rw [hstep] at hle
      have hv : acc * 10 + (c.toNat - 48) ≤ ULONG_MAX :=
        le_trans (parseDigitsAcc_mono rest _) hle
      unfold strtoulLoopO
      rw [hdv]
      simp only [if_pos hv]
      rw [ih _ hle, hstep]
    · have hdv : digitValInBase 10 c = none := digitValInBase_nondec 10 c (by omega) hd
      unfold strtoulLoopO
      rw [hdv]
      unfold parseDigitsAcc
      rw [if_neg hd]

theorem isSpaceChar_of_digit (c : Char) (h1 : 48 ≤ c.toNat) (h2 : c.toNat ≤ 57) :
    isSpaceChar c = false := by
  unfold isSpaceChar
  have hne : ∀ d : Char, c.toNat ≠ d.toNat → (c == d) = false := by
    intro d hd
    rw [beq_eq_false_iff_ne]
    intro he
    exact hd (he ▸ rfl)
  rw [hne ' ' (by intro he; revert h1 h2; rw [he]; decide),
    hne '\t' (by intro he; revert h1 h2; rw [he]; decide),
    hne '\n' (by intro he; revert h1 h2; rw [he]; decide),
    hne '\x0b' (by intro he; revert h1 h2; rw [he]; decide),
    hne '\x0c' (by intro he; revert h1 h2; rw [he]; decide),
    hne '\r' (by intro he; revert h1 h2; rw [he]; decide)]
  rfl

theorem strtoulBase0_zero_stop (c2 : Char) (r2 : List Char)
    (h2d : ¬ (48 ≤ c2.toNat ∧ c2.toNat ≤ 57)) (h2x : c2 ≠ 'x') (h2X : c2 ≠ 'X') :
    strtoulBase0 ('0' :: c2 :: r2) = (0, false) := by
  unfold strtoulBase0
  rw [if_neg ?hc1, if_pos ?hc2]
  case hc1 =>
    intro hcon
    obtain ⟨-, -, hx, -⟩ := hcon
    simp only [List.drop_succ_cons, List.drop_zero, List.headD_cons] at hx
    rcases hx with hx | hx
    · exact h2x hx
    · exact h2X hx
  case hc2 => simp
  show strtoulLoopO 8 ('0' :: c2 :: r2) 0 false = (0, false)
  unfold strtoulLoopO
  rw [show digitValInBase 8 '0' = some 0 from by decide]
  simp only
  rw [if_pos (by unfold ULONG_MAX; omega)]
  unfold strtoulLoopO
  rw [digitValInBase_nondec 8 c2 (by omega) h2d]

theorem parseLeadingDigits_zero_stop (c2 : Char) (r2 : List Char)
    (h2d : ¬ (48 ≤ c2.toNat ∧ c2.toNat ≤ 57)) :
    parseLeadingDigits ('0' :: c2 :: r2) = 0 := by
  unfold parseLeadingDigits parseDigitsAcc
  rw [if_pos (by decide)]
  show parseDigitsAcc (c2 :: r2) _ = 0
  unfold parseDigitsAcc
  rw [if_neg h2d]
  decide

theorem strtoul0_decimalForm (v : List Char) (h : decimalValueFormB v = true) :
    strtoul0 v = parseLeadingDigits v := by
  cases v with
  | nil => simp [decimalValueFormB] at h
  | cons c rest =>
    unfold decimalValueFormB at h
    rw [Bool.and_eq_true, Bool.and_eq_true] at h
    obtain ⟨⟨hd, hle⟩, hz⟩ := h
    rw [decide_eq_true_iff] at hd
    rw [decide_eq_true_iff] at hle
    have hds : isSpaceChar c = false := isSpaceChar_of_digit c hd.1 hd.2
    have hdw : (c :: rest).dropWhile isSpaceChar = c :: rest := by
      rw [List.dropWhile_cons, hds]
      simp
    unfold strtoul0
    rw [hdw]
    unfold strtoulSigned
    have hcm : c ≠ '-' := by
      intro he
      revert hd
      rw [he]
      decide
    have hcp : c ≠ '+' := by
      intro he
      revert hd
      rw [he]
      decide
    rw [if_neg (by simpa using hcm), if_neg (by simpa using hcp)]
    by_cases hc0 : c = '0'
    · subst hc0
      rw [if_pos rfl] at hz
      cases rest with
      | nil => decide
      | cons c2 r2 =>
        rw [Bool.and_eq_true, Bool.and_eq_true] at hz
        obtain ⟨⟨h2d, h2x⟩, h2X⟩ := hz
        rw [Bool.not_eq_true', decide_eq_false_iff_not] at h2d
        rw [Bool.not_eq_true', beq_eq_false_iff_ne] at h2x
        rw [Bool.not_eq_true', beq_eq_false_iff_ne] at h2X
        rw [strtoulBase0_zero_stop c2 r2 h2d h2x h2X,
          parseLeadingDigits_zero_stop c2 r2 h2d]
    · unfold strtoulBase0
      rw [if_neg ?hc1, if_neg ?hc2]
      case hc1 =>
        intro hcon
        exact hc0 (by simpa using hcon.2.1)
      case hc2 => simpa using hc0
      unfold parseLeadingDigits at hle ⊢
      rw [strtoulLoopO_ten _ 0 hle]

/-! ### Step lemmas for crossing refutations at segment boundaries -/

theorem crossFree_step (pat cLeft u vtail : List Char) (q : Nat)
    (hq : (pat.drop 1)[q]? = some '"') (hcol : (pat.drop 1)[q + 1]? = some ':')
    (hu : ∀ x ∈ u, x ≠ '"')
    (hv : ∀ j, j ≤ q → vtail[j]? = some '"' → vtail[j + 1]? ≠ some ':')
    (hks : ∀ k, k < pat.length → 1 < k → ¬ pat.take k <:+ cLeft) :
    CrossFree pat cLeft (u ++ vtail) := by
  intro k hklt hk0 hand
  obtain ⟨hsuf, hpre⟩ := hand
  by_cases hk1 : k = 1
  · subst hk1
    exact not_prefix_quote_colon (pat.drop 1) u vtail q hq hcol hu hv hpre
  · exact hks k hklt (by omega) hsuf

theorem crossFree_step_head (pat cLeft u v : List Char) (c0 : Char)
    (ht : (pat.drop 1)[0]? = some c0)
    (hu : ∀ x ∈ u, x ≠ c0) (hv : v[0]? ≠ some c0)
    (hks : ∀ k, k < pat.length → 1 < k → ¬ pat.take k <:+ cLeft) :
    CrossFree pat cLeft (u ++ v) := by
  intro k hklt hk0 hand
  obtain ⟨hsuf, hpre⟩ := hand
  by_cases hk1 : k = 1
  · subst hk1
    have h0 : (u ++ v)[0]? = some c0 := by
      rw [prefix_getElem _ _ hpre 0 ((List.getElem?_eq_some.mp ht).1)]
      exact ht
    cases u with
    | nil =>
      rw [List.nil_append] at h0
      exact hv h0
    | cons a u' =>
      have ha : ((a :: u') ++ v)[0]? = some a := by simp
      rw [ha] at h0
      injection h0 with h0
      exact hu a (List.mem_cons_self a u') h0
  · exact hks k hklt (by omega) hsuf

theorem head_window (w x : List Char) (q : Nat) (hlen : q + 2 ≤ w.length)
    (hchk : ∀ j, j ≤ q → w[j]? = some '"' → w[j + 1]? ≠ some ':') :
    ∀ j, j ≤ q → (w ++ x)[j]? = some '"' → (w ++ x)[j + 1]? ≠ some ':' := by
  intro j hj hq1 hq2
  rw [List.getElem?_append_left (by omega)] at hq1
  rw [List.getElem?_append_left (by omega)] at hq2
  exact hchk j hj hq1 hq2

theorem cleanText_no_quote (s : List Char) (h : CleanText s) : ∀ x ∈ s, x ≠ '"' :=
  fun x hx => (h x hx).2.2

theorem uint64ToString_no_comma (n : Nat) : ',' ∉ uint64ToString n := by
  intro hm
  exact (hexP_excludes ',' (uint64ToString_hexP n ',' hm)).1 rfl

theorem uint64ToString_no_brace (n : Nat) : '}' ∉ uint64ToString n := by
  intro hm
  exact (hexP_excludes '}' (uint64ToString_hexP n '}' hm)).2.1 rfl

theorem uint64ToString_no_quote (n : Nat) : ∀ x ∈ uint64ToString n, x ≠ '"' :=
  fun x hx => (hexP_excludes x (uint64ToString_hexP n x hx)).2.2.1

theorem uint64ToString_no_p (n : Nat) : ∀ x ∈ uint64ToString n, x ≠ 'p' :=
  fun x hx => (hexP_excludes x (uint64ToString_hexP n x hx)).2.2.2

theorem uint32ToString_no_comma (n : Nat) : ',' ∉ uint32ToString n := by
  intro hm
  exact (decP_excludes ',' (uint32ToString_decP n ',' hm)).1 rfl

theorem uint32ToString_no_quote (n : Nat) : ∀ x ∈ uint32ToString n, x ≠ '"' :=
  fun x hx => (decP_excludes x (uint32ToString_decP n x hx)).2.2.1

theorem uint32ToString_no_h (n : Nat) : ∀ x ∈ uint32ToString n, x ≠ 'h' :=
  fun x hx => (decP_excludes x (uint32ToString_decP n x hx)).2.2.2

/-! ### First-occurrence chains for the connection-info message -/

theorem noOcc_own_lead (hdr non pwd : List Char) (hh : CleanText hdr)
    (hn : CleanText non) (hp : CleanText pwd) :
    NoOcc jsonOwnSessionKey
      (hdr ++ (kOpenNonce ++ (non ++ (kSepPassword ++ (pwd ++ ['"', ',']))))) := by
  have hq : '"' ∈ jsonOwnSessionKey := by decide
  apply noOcc_append
  · exact noOcc_of_forall_ne _ _ '"' hq (cleanText_no_quote hdr hh)
  · apply noOcc_append
    · decide
    · apply noOcc_append
      · exact noOcc_of_forall_ne _ _ '"' hq (cleanText_no_quote non hn)
      · apply noOcc_append
        · decide
        · apply noOcc_append
          · exact noOcc_of_forall_ne _ _ '"' hq (cleanText_no_quote pwd hp)
          · decide
          · exact crossFree_of_right _ _ _ (by decide)
        · exact crossFree_step _ _ _ _ 5 (by decide) (by decide)
            (cleanText_no_quote pwd hp) (by decide) (by decide)
      · exact crossFree_of_take2 _ _ kSepPassword _ (by decide) (by decide)
    · exact crossFree_step _ _ _ _ 5 (by decide) (by decide)
        (cleanText_no_quote non hn)
        (head_window kSepPassword _ 5 (by decide) (by decide)) (by decide)
  · exact crossFree_of_take2 _ _ kOpenNonce _ (by decide) (by decide)

theorem noOcc_peer_lead (hdr non pwd : List Char) (B : Nat) (hh : CleanText hdr)
    (hn : CleanText non) (hp : CleanText pwd) :
    NoOcc jsonPeerSessionKey
      (hdr ++ (kOpenNonce ++ (non ++ (kSepPassword ++
        (pwd ++ (kSepOwn ++ (uint64ToString B ++ ['"', ',']))))))) := by
  have hq : '"' ∈ jsonPeerSessionKey := by decide
  apply noOcc_append
  · exact noOcc_of_forall_ne _ _ '"' hq (cleanText_no_quote hdr hh)
  · apply noOcc_append
    · decide
    · apply noOcc_append
      · exact noOcc_of_forall_ne _ _ '"' hq (cleanText_no_quote non hn)
      · apply noOcc_append
        · decide
        · apply noOcc_append
          · exact noOcc_of_forall_ne _ _ '"' hq (cleanText_no_quote pwd hp)
          · apply noOcc_append
            · decide
            · apply noOcc_append
              · exact noOcc_of_forall_ne _ _ '"' hq (uint64ToString_no_quote B)
              · decide
              · exact crossFree_of_right _ _ _ (by decide)
            · exact crossFree_step_head _ _ _ _ 'p' (by decide)
                (uint64ToString_no_p B) (by decide) (by decide)
          · exact crossFree_of_take2 _ _ kSepOwn _ (by decide) (by decide)
        · exact crossFree_step _ _ _ _ 6 (by decide) (by decide)
            (cleanText_no_quote pwd hp)
            (head_window kSepOwn _ 6 (by decide) (by decide)) (by decide)
      · exact crossFree_of_take2 _ _ kSepPassword _ (by decide) (by decide)
    · exact crossFree_step _ _ _ _ 6 (by decide) (by decide)
        (cleanText_no_quote non hn)
        (head_window kSepPassword _ 6 (by decide) (by decide)) (by decide)
  · exact crossFree_of_take2 _ _ kOpenNonce _ (by decide) (by decide)

theorem createInfo_shape_own (hdr non pwd : List Char) (A B : Nat) :
    createEncryptedConnectionInfo hdr non pwd A B =
      (hdr ++ (kOpenNonce ++ (non ++ (kSepPassword ++ (pwd ++ ['"', ','])))))
        ++ jsonOwnSessionKey
        ++ '"' :: (uint64ToString B ++ '"' :: ',' ::
            (jsonPeerSessionKey ++ '"' :: (uint64ToString A ++ '"' :: '}' :: '}' :: []))) := by
  unfold createEncryptedConnectionInfo createJsonPair createJsonEndPair kOpenNonce kArgs
    kSepPassword
  simp [List.append_assoc]

theorem createInfo_shape_peer (hdr non pwd : List Char) (A B : Nat) :
    createEncryptedConnectionInfo hdr non pwd A B =
      (hdr ++ (kOpenNonce ++ (non ++ (kSepPassword ++
          (pwd ++ (kSepOwn ++ (uint64ToString B ++ ['"', ','])))))))
        ++ jsonPeerSessionKey
        ++ '"' :: (uint64ToString A ++ '"' :: '}' :: '}' :: []) := by
  unfold createEncryptedConnectionInfo createJsonPair createJsonEndPair kOpenNonce kArgs
    kSepPassword kSepOwn
  simp [List.append_assoc]

theorem getOwnSessionKey_eval (s : List Char) (r0 : Nat) (st en : Nat) (val : List Char)
    (hstart : getStartIndex s jsonOwnSessionKey = (st : Int))
    (hend : getEndIndex s st = (en : Int))
    (hsub : substring s st en = val) :
    getOwnSessionKey s r0 = (true, stringToUint64 val) := by
  simp only [getOwnSessionKey]
  rw [hstart, if_neg (by omega), Int.toNat_natCast, hend, if_neg (by omega),
    Int.toNat_natCast, hsub]

theorem getPeerSessionKey_eval (s : List Char) (r0 : Nat) (st en : Nat) (val : List Char)
    (hstart : getStartIndex s jsonPeerSessionKey = (st : Int))
    (hend : getEndIndex s st = (en : Int))
    (hsub : substring s st en = val) :
    getPeerSessionKey s r0 = (true, stringToUint64 val) := by
  simp only [getPeerSessionKey]
  rw [hstart, if_neg (by omega), Int.toNat_natCast, hend, if_neg (by omega),
    Int.toNat_natCast, hsub]

theorem getHmac_eval (s : List Char) (r0 : List Char) (st en : Nat) (val : List Char)
    (hstart : getStartIndex s jsonHmac = (st : Int))
    (hend : getEndIndex s st = (en : Int))
    (hsub : substring s st en = val) :
    getHmac s r0 = (true, val) := by
  simp only [getHmac]
  rw [hstart, if_neg (by omega), Int.toNat_natCast, hend, if_neg (by omega),
    Int.toNat_natCast, hsub]

/-! ## Claim C1: session-key swap in `createEncryptedConnectionInfo` -/

/-- C1 (amended): for every header, nonce and password free of ',', '}' and
'"', and 64-bit session keys A and B, the message
`createEncryptedConnectionInfo header nonce password A B` carries B under the
ownSK field and A under the peerSK field: `getOwnSessionKey` returns true
with output B and `getPeerSessionKey` returns true with output A — the
own/peer labels are swapped relative to the arguments.  (The claim as stated
constrains only the nonce and the password; `claim1_counterexample` shows a
header or a quote-bearing value can defeat the extraction, so the amendment
extends the same cleanliness condition to all three text inputs.) -/
theorem claim1_amended (hdr non pwd : List Char) (A B r1 r2 : Nat)
    (hh : CleanText hdr) (hn : CleanText non) (hp : CleanText pwd)
    (hA : A < 18446744073709551616) (hB : B < 18446744073709551616) :
    getOwnSessionKey (createEncryptedConnectionInfo hdr non pwd A B) r1 = (true, B) ∧
    getPeerSessionKey (createEncryptedConnectionInfo hdr non pwd A B) r2 = (true, A) := by
  constructor
  · obtain ⟨hstart, hend, hsub⟩ := getField_mid jsonOwnSessionKey
      (hdr ++ (kOpenNonce ++ (non ++ (kSepPassword ++ (pwd ++ ['"', ','])))))
      (uint64ToString B)
      (jsonPeerSessionKey ++ '"' :: (uint64ToString A ++ '"' :: '}' :: '}' :: []))
      (by decide) (by decide)
      (noOcc_own_lead hdr non pwd hh hn hp)
      (uint64ToString_no_comma B)
    rw [createInfo_shape_own hdr non pwd A B]
    rw [getOwnSessionKey_eval _ r1 _ _ _ hstart hend hsub]
    rw [stringToUint64_uint64ToString B hB]
  · obtain ⟨hstart, hend, hsub⟩ := getField_end jsonPeerSessionKey
      (hdr ++ (kOpenNonce ++ (non ++ (kSepPassword ++
        (pwd ++ (kSepOwn ++ (uint64ToString B ++ ['"', ','])))))))
      (uint64ToString A)
      (by decide) (by decide)
      (noOcc_peer_lead hdr non pwd B hh hn hp)
      (uint64ToString_no_comma A) (uint64ToString_no_brace A)
    rw [createInfo_shape_peer hdr non pwd A B]
    rw [getPeerSessionKey_eval _ r2 _ _ _ hstart hend hsub]
    rw [stringToUint64_uint64ToString A hA]

/-- C1 counterexample to the claim as stated: the claim quantifies over every
header while constraining only nonce and password, but a header containing
the ownSK identifier text hijacks the first-occurrence search.  Here nonce
"N" and password "P" satisfy the claim's hypotheses (no ',', no '}', no
field-identifier text), the keys are A = 1, B = 2, yet `getOwnSessionKey`
returns (true, 0) instead of (true, 2). -/
theorem claim1_counterexample :
    (∀ c ∈ ("N").toList, c ≠ ',' ∧ c ≠ '}') ∧
    (∀ c ∈ ("P").toList, c ≠ ',' ∧ c ≠ '}') ∧
    NoOcc jsonOwnSessionKey ("N").toList ∧ NoOcc jsonPeerSessionKey ("N").toList ∧
    NoOcc jsonOwnSessionKey ("P").toList ∧ NoOcc jsonPeerSessionKey ("P").toList ∧
    getOwnSessionKey
      (createEncryptedConnectionInfo ("\"ownSK\":\"0\",").toList ("N").toList ("P").toList 1 2)
      0 = (true, 0) := by
  decide

/-- C1 witness: the amended theorem applied at a concrete instance. -/
theorem claim1_witness :
    getOwnSessionKey (createEncryptedConnectionInfo ("H").toList ("N").toList ("P").toList 1 2) 0
        = (true, 2) ∧
    getPeerSessionKey (createEncryptedConnectionInfo ("H").toList ("N").toList ("P").toList 1 2) 0
        = (true, 1) :=
  claim1_amended ("H").toList ("N").toList ("P").toList 1 2 0 0
    (by decide) (by decide) (by decide) (by decide) (by decide)

/-! ## Claim C4: conditional duration field in `createEncryptionRequestIntro` -/

/-- C4: for every header and duration, `createEncryptionRequestIntro` emits
the header, the argument-object opener, and a duration field pair carrying
the decimal rendering of the duration exactly when the header equals the
temporary encryption request header constant; any other header yields
exactly the header plus the opener. -/
theorem claim4_theorem (hdr : List Char) (d : Nat) :
    (createEncryptionRequestIntro hdr d
        = hdr ++ kArgs ++ createJsonPair jsonDuration (uint32ToString d)
      ↔ hdr = temporaryEncryptionRequestHeader) ∧
    (hdr ≠ temporaryEncryptionRequestHeader →
      createEncryptionRequestIntro hdr d = hdr ++ kArgs) := by
  by_cases h : hdr = temporaryEncryptionRequestHeader
  · constructor
    · constructor
      · intro _
        exact h
      · intro _
        unfold createEncryptionRequestIntro kArgs
        rw [if_pos h]
    · intro hne
      exact absurd h hne
  · constructor
    · constructor
      · intro heq
        exfalso
        unfold createEncryptionRequestIntro at heq
        rw [if_neg h] at heq
        have hlen := congrArg List.length heq
        simp only [List.length_append, List.append_nil, kArgs, createJsonPair] at hlen
        have hd := uint32ToString_ne_nil d
        have hpos : 0 < (uint32ToString d).length := List.length_pos.mpr hd
        simp [List.length_append] at hlen
      · intro he
        exact absurd he h
    · intro _
      unfold createEncryptionRequestIntro kArgs
      rw [if_neg h]
      simp

/-- C4 witness: the theorem applied at the temporary header and at another
header. -/
theorem claim4_witness :
    createEncryptionRequestIntro temporaryEncryptionRequestHeader 5000
        = temporaryEncryptionRequestHeader ++ kArgs
          ++ createJsonPair jsonDuration (uint32ToString 5000) ∧
    createEncryptionRequestIntro ("other").toList 5000 = ("other").toList ++ kArgs := by
  constructor
  · exact (claim4_theorem temporaryEncryptionRequestHeader 5000).1.mpr rfl
  · exact (claim4_theorem ("other").toList 5000).2 (by decide)

/-! ## Claim C5: `getEndIndex` delimiter policy -/

theorem char_not_in_getElem (s : List Char) (c : Char) (h : c ∉ s) :
    ∀ j : Nat, s[j]? ≠ some c := by
  intro j hj
  exact h (List.getElem?_mem hj)

theorem findSub_some_first (pat s : List Char) (j : Nat) (h : findSub pat s = some j) :
    ∀ i, i < j → ¬ pat <+: s.drop i := by
  induction s generalizing j with
  | nil => simp [findSub] at h
  | cons c rest ih =>
    unfold findSub at h
    by_cases hp : pat.isPrefixOf (c :: rest)
    · rw [if_pos hp] at h
      cases h
      intro i hi
      omega
    · rw [if_neg hp] at h
      cases hfs : findSub pat rest with
      | none =>
        rw [hfs] at h
        simp at h
      | some j' =>
        rw [hfs] at h
        simp at h
        subst h
        intro i hi
        cases i with
        | zero =>
          rw [List.drop_zero]
          exact fun hpre => hp ((isPrefixOf_iff _ _).mpr hpre)
        | succ i' => exact ih j' hfs i' (by omega)

theorem findSub_char_from (s : List Char) (start i : Nat) (c : Char) (hle : start ≤ i)
    (hi : s[i]? = some c) (hfirst : ∀ j, start ≤ j → j < i → s[j]? ≠ some c) :
    findSub [c] (s.drop start) = some (i - start) := by
  apply findSub_eq_some _ _ _ (by simp)
  · rw [singleton_prefix_iff, List.getElem?_drop, List.getElem?_drop]
    have harith : start + (i - start + 0) = i := by omega
    rw [harith]
    exact hi
  · intro j hj hp
    rw [singleton_prefix_iff, List.getElem?_drop, List.getElem?_drop] at hp
    have harith : start + (j + 0) = start + j := by omega
    rw [harith] at hp
    exact hfirst (start + j) (by omega) (by omega) hp

theorem findSub_char_from_none (s : List Char) (start : Nat) (c : Char)
    (h : ∀ j, start ≤ j → s[j]? ≠ some c) : findSub [c] (s.drop start) = none := by
  rw [findSub_char_none_iff]
  intro hmem
  obtain ⟨j, hj⟩ := List.mem_iff_getElem?.mp hmem
  rw [List.getElem?_drop] at hj
  exact h (start + j) (by omega) hj

theorem char_none_from (s : List Char) (start : Nat) (c : Char)
    (h : findSub [c] (s.drop start) = none) : ∀ j, start ≤ j → s[j]? ≠ some c := by
  intro j hj hc
  rw [findSub_char_none_iff] at h
  apply h
  have hd : (s.drop start)[j - start]? = some c := by
    rw [List.getElem?_drop]
    have harith : start + (j - start) = j := by omega
    rw [harith]
    exact hc
  exact List.getElem?_mem hd

theorem findSub_char_some_at (s : List Char) (start j : Nat) (c : Char)
    (h : findSub [c] (s.drop start) = some j) : s[start + j]? = some c := by
  have := findSub_some_occurs [c] (s.drop start) j h
  rw [singleton_prefix_iff, List.getElem?_drop, List.getElem?_drop, Nat.add_zero] at this
  exact this

/-- C5 (amended): `getEndIndex` returns one less than the index of the first
',' at or after the search start; when no comma exists in the rest of the
message it returns one less than the index of the first '}' at or after the
search start; it returns -2 when neither occurs.  The claim's "negative iff
neither delimiter occurs" direction is false (`claim5_counterexample`): the
result is also negative when the chosen delimiter sits at index 0, where
one-less is -1; the amended equivalence adds those two cases. -/
theorem claim5_amended (s : List Char) (start : Nat) :
    (∀ i, start ≤ i → s[i]? = some ',' →
      (∀ j, start ≤ j → j < i → s[j]? ≠ some ',') →
      getEndIndex s start = (i : Int) - 1) ∧
    ((∀ j, start ≤ j → s[j]? ≠ some ',') →
      ∀ i, start ≤ i → s[i]? = some '}' →
        (∀ j, start ≤ j → j < i → s[j]? ≠ some '}') →
        getEndIndex s start = (i : Int) - 1) ∧
    ((∀ j, start ≤ j → s[j]? ≠ some ',' ∧ s[j]? ≠ some '}') →
      getEndIndex s start = -2) ∧
    (getEndIndex s start < 0 ↔
      (∀ j, start ≤ j → s[j]? ≠ some ',' ∧ s[j]? ≠ some '}') ∨
      (start = 0 ∧ s[0]? = some ',') ∨
      (start = 0 ∧ (∀ j : Nat, s[j]? ≠ some ',') ∧ s[0]? = some '}')) := by
  refine ⟨?_, ?_, ?_, ?_⟩
  · intro i hle hi hfirst
    rw [getEndIndex_comma s start (i - start) (findSub_char_from s start i ',' hle hi hfirst)]
    push_cast
    omega
  · intro hnone i hle hi hfirst
    rw [getEndIndex_brace s start (i - start)
      (findSub_char_from_none s start ',' hnone)
      (findSub_char_from s start i '}' hle hi hfirst)]
    push_cast
    omega
  · intro hnone
    simp only [getEndIndex]
    rw [indexOfFrom_shift_none s [','] start
        (findSub_char_from_none s start ',' (fun j hj => (hnone j hj).1)),
      if_pos (by omega),
      indexOfFrom_shift_none s ['}'] start
        (findSub_char_from_none s start '}' (fun j hj => (hnone j hj).2))]
    decide
  · cases hc : findSub [','] (s.drop start) with
    | some j =>
      rw [getEndIndex_comma s start j hc]
      have hocc := findSub_char_some_at s start j ',' hc
      constructor
      · intro hlt
        have hz : start = 0 ∧ j = 0 := by omega
        right
        left
        refine ⟨hz.1, ?_⟩
        have := hocc
        rw [hz.1, hz.2] at this
        exact this
      · rintro (hno | ⟨hs0, h0⟩ | ⟨hs0, hno, _⟩)
        · exact absurd hocc (hno (start + j) (by omega)).1
        · subst hs0
          have hj0 : j = 0 := by
            by_contra hjne
            have := findSub_some_first [','] (s.drop 0) j hc 0 (by omega)
            rw [List.drop_zero, List.drop_zero, singleton_prefix_iff] at this
            exact this h0
          omega
        · exact absurd hocc (hno (start + j))
    | none =>
      have hnc : ∀ j, start ≤ j → s[j]? ≠ some ',' := char_none_from s start ',' hc
      cases hb : findSub ['}'] (s.drop start) with
      | some j =>
        rw [getEndIndex_brace s start j hc hb]
        have hocc := findSub_char_some_at s start j '}' hb
        constructor
        · intro hlt
          have hz : start = 0 ∧ j = 0 := by omega
          right
          right
          refine ⟨hz.1, fun j' => hnc j' (by omega), ?_⟩
          have := hocc
          rw [hz.1, hz.2] at this
          exact this
        · rintro (hno | ⟨hs0, h0⟩ | ⟨hs0, _, h0⟩)
          · exact absurd hocc (hno (start + j) (by omega)).2
          · subst hs0
            exact absurd h0 (hnc 0 (by omega))
          · subst hs0
            have hj0 : j = 0 := by
              by_contra hjne
              have := findSub_some_first ['}'] (s.drop 0) j hb 0 (by omega)
              rw [List.drop_zero, List.drop_zero, singleton_prefix_iff] at this
              exact this h0
            omega
      | none =>
        simp only [getEndIndex]
        rw [indexOfFrom_shift_none s [','] start hc, if_pos (by omega),
          indexOfFrom_shift_none s ['}'] start hb]
        constructor
        · intro _
          left
          intro j hj
          exact ⟨char_none_from s start ',' hc j hj, char_none_from s start '}' hb j hj⟩
        · intro _
          decide

/-- C5 counterexample to the claim as stated: a closing brace occurs at the
search start, yet the result is negative (the claim says negative results
happen only when neither delimiter occurs at or after the start). -/
theorem claim5_counterexample :
    (("\x7d").toList)[0]? = some '}' ∧ getEndIndex ("\x7d").toList 0 = -1 := by
  decide

/-- C5 witness: the amended theorem applied at concrete inputs. -/
theorem claim5_witness :
    getEndIndex ("ab,c").toList 0 = 1 ∧ getEndIndex ("ab\x7dc").toList 0 = 1 ∧
    getEndIndex ("abc").toList 0 = -2 := by
  have h := claim5_amended ("ab,c").toList 0
  have h2 := claim5_amended ("ab\x7dc").toList 0
  have h3 := claim5_amended ("abc").toList 0
  refine ⟨?_, ?_, ?_⟩
  · have := h.1 2 (by omega) (by decide) (by decide)
    rw [this]
    decide
  · have := h2.2.1 (fun j _ => char_not_in_getElem _ ',' (by decide) j) 2 (by omega)
      (by decide) (by decide)
    rw [this]
    decide
  · exact h3.2.2.1 (fun j _ =>
      ⟨char_not_in_getElem _ ',' (by decide) j, char_not_in_getElem _ '}' (by decide) j⟩)

/-! ## Claim C6: `getMeshMessageCount` bound and fatal assertion -/

/-- C6: for every message in which the meshMessageCount identifier occurs,
`getMeshMessageCount` returns true with the parsed value written to the
output whenever the parsed value is at most 65535, and a parsed value
strictly greater than 65535 reaches the fatal assertion (modelled as the
`none` outcome) — never a false return, never a truncated write. -/
theorem claim6_theorem (s : List Char) (r0 : Nat) (h : jsonMeshMessageCount <:+: s) :
    (strtoul0 (substringFrom s (getStartIndex s jsonMeshMessageCount).toNat) ≤ 65535 →
      getMeshMessageCount s r0
        = some (true, strtoul0 (substringFrom s (getStartIndex s jsonMeshMessageCount).toNat))) ∧
    (65535 < strtoul0 (substringFrom s (getStartIndex s jsonMeshMessageCount).toNat) →
      getMeshMessageCount s r0 = none) := by
  have hnn : 0 ≤ getStartIndex s jsonMeshMessageCount :=
    getStartIndex_nonneg_of_present s _ (by decide) h
  constructor
  · intro hle
    simp only [getMeshMessageCount]
    rw [if_neg (by omega), if_pos hle]
  · intro hgt
    simp only [getMeshMessageCount]
    rw [if_neg (by omega), if_neg (by omega)]

/-- C6 witness: the spec's boundary pair — value 65535 succeeds, value 65536
aborts. -/
theorem claim6_witness :
    getMeshMessageCount ("\"meshMsgCount\":\"65535\"").toList 0 = some (true, 65535) ∧
    getMeshMessageCount ("\"meshMsgCount\":\"65536\"").toList 0 = none := by
  constructor
  · have h := (claim6_theorem ("\"meshMsgCount\":\"65535\"").toList 0 (by decide)).1 (by decide)
    rw [h]
    decide
  · exact (claim6_theorem ("\"meshMsgCount\":\"65536\"").toList 0 (by decide)).2 (by decide)

/-! ## Claim C7: hardware-address getters demand a 12-character span -/

/-- C7: `getPeerStaMac` and `getPeerApMac` return false with the output array
untouched unless the located value span — end locator result minus start
locator result — is exactly 12; only a 12-character span reaches the
hex-to-bytes conversion and a true return. -/
theorem claim7_theorem (s : List Char) (m1 m2 : List Nat) :
    ((getPeerStaMac s m1).1 = true ↔
      0 ≤ getStartIndex s jsonPeerStaMac ∧
      0 ≤ getEndIndex s (getStartIndex s jsonPeerStaMac).toNat ∧
      getEndIndex s (getStartIndex s jsonPeerStaMac).toNat
        - getStartIndex s jsonPeerStaMac = 12) ∧
    ((getPeerStaMac s m1).1 = false → (getPeerStaMac s m1).2 = m1) ∧
    ((getPeerStaMac s m1).1 = true → (getPeerStaMac s m1).2
        = stringToMac (substring s (getStartIndex s jsonPeerStaMac).toNat
            (getEndIndex s (getStartIndex s jsonPeerStaMac).toNat).toNat)) ∧
    ((getPeerApMac s m2).1 = true ↔
      0 ≤ getStartIndex s jsonPeerApMac ∧
      0 ≤ getEndIndex s (getStartIndex s jsonPeerApMac).toNat ∧
      getEndIndex s (getStartIndex s jsonPeerApMac).toNat
        - getStartIndex s jsonPeerApMac = 12) ∧
    ((getPeerApMac s m2).1 = false → (getPeerApMac s m2).2 = m2) ∧
    ((getPeerApMac s m2).1 = true → (getPeerApMac s m2).2
        = stringToMac (substring s (getStartIndex s jsonPeerApMac).toNat
            (getEndIndex s (getStartIndex s jsonPeerApMac).toNat).toNat)) := by
  refine ⟨?_, ?_, ?_, ?_, ?_, ?_⟩ <;>
    simp only [getPeerStaMac, getPeerApMac] <;>
    split_ifs with h1 h2 <;>
    push_neg at *
  · exact ⟨fun hf => by simp at hf, fun hr => absurd hr.1 (by omega)⟩
  · refine ⟨fun hf => by simp at hf, fun hr => ?_⟩
    rcases h2 with hn | hne
    · omega
    · exact hne hr.2.2
  · exact ⟨fun _ => ⟨by omega, h2.1, h2.2⟩, fun _ => rfl⟩
  · intro _
    rfl
  · intro _
    rfl
  · intro hf
    simp at hf
  · intro hf
    simp at hf
  · intro hf
    simp at hf
  · intro _
    rfl
  · exact ⟨fun hf => by simp at hf, fun hr => absurd hr.1 (by omega)⟩
  · refine ⟨fun hf => by simp at hf, fun hr => ?_⟩
    rcases h2 with hn | hne
    · omega
    · exact hne hr.2.2
  · exact ⟨fun _ => ⟨by omega, h2.1, h2.2⟩, fun _ => rfl⟩
  · intro _
    rfl
  · intro _
    rfl
  · intro hf
    simp at hf
  · intro hf
    simp at hf
  · intro hf
    simp at hf
  · intro _
    rfl

/-- C7 witness: a 12-character span converts and returns true; a 10-character
span returns false with the output untouched. -/
theorem claim7_witness :
    (getPeerStaMac ("\"peerStaMac\":\"AABBCCDDEEFF\",").toList [0, 0, 0, 0, 0, 0]).1 = true ∧
    (getPeerStaMac ("\"peerStaMac\":\"AABBCCDDEE\",").toList [9]).1 = false ∧
    (getPeerStaMac ("\"peerStaMac\":\"AABBCCDDEE\",").toList [9]).2 = [9] ∧
    (getPeerApMac ("\"peerApMac\":\"AABBCCDDEEFF\",").toList []).1 = true := by
  have h12 := claim7_theorem ("\"peerStaMac\":\"AABBCCDDEEFF\",").toList [0, 0, 0, 0, 0, 0] []
  have h10 := claim7_theorem ("\"peerStaMac\":\"AABBCCDDEE\",").toList [9] []
  have hap := claim7_theorem ("\"peerApMac\":\"AABBCCDDEEFF\",").toList [] []
  refine ⟨?_, ?_, ?_, ?_⟩
  · exact h12.1.mpr (by refine ⟨by decide, by decide, by decide⟩)
  · have hne : ¬ ((getPeerStaMac ("\"peerStaMac\":\"AABBCCDDEE\",").toList [9]).1 = true) := by
      intro ht
      have := h10.1.mp ht
      revert this
      decide
    cases hb : (getPeerStaMac ("\"peerStaMac\":\"AABBCCDDEE\",").toList [9]).1 with
    | false => rfl
    | true => exact absurd hb hne
  · apply h10.2.1
    have hne : ¬ ((getPeerStaMac ("\"peerStaMac\":\"AABBCCDDEE\",").toList [9]).1 = true) := by
      intro ht
      have := h10.1.mp ht
      revert this
      decide
    cases hb : (getPeerStaMac ("\"peerStaMac\":\"AABBCCDDEE\",").toList [9]).1 with
    | false => rfl
    | true => exact absurd hb hne
  · exact hap.2.2.2.1.mpr (by refine ⟨by decide, by decide, by decide⟩)

/-! ## Claim C9: numeric getters read to end of buffer -/

/-- C9 (amended): for every message in which the respective field identifier
occurs, `getDuration`, `getUnsynchronizedMessageID` and `getDesync` return
true — no end delimiter is required, the value is read from the value start
to the end of the whole buffer (`substringFrom`).  The output equals the
spec's "read leading digits, stop at first non-digit" parse whenever the
value text is in plain decimal form (`decimalValueFormB`: leading decimal
digit, no 0x/octal-prefix ambiguity, leading-digit value within 32 bits);
in general the output follows C `strtoul` base-0 semantics
(`claim9_counterexample`: value "0x10" parses as 16, not 0). -/
theorem claim9_amended (s : List Char) (k0 u0 : Nat) (b0 : Bool) :
    (jsonDuration <:+: s →
      (getDuration s k0).1 = true ∧
      (decimalValueFormB (substringFrom s (getStartIndex s jsonDuration).toNat) = true →
        (getDuration s k0).2
          = parseLeadingDigits (substringFrom s (getStartIndex s jsonDuration).toNat))) ∧
    (jsonUnsynchronizedMessageID <:+: s →
      (getUnsynchronizedMessageID s u0).1 = true ∧
      (decimalValueFormB
          (substringFrom s (getStartIndex s jsonUnsynchronizedMessageID).toNat) = true →
        (getUnsynchronizedMessageID s u0).2
          = parseLeadingDigits
              (substringFrom s (getStartIndex s jsonUnsynchronizedMessageID).toNat))) ∧
    (jsonDesync <:+: s →
      (getDesync s b0).1 = true ∧
      (decimalValueFormB (substringFrom s (getStartIndex s jsonDesync).toNat) = true →
        (getDesync s b0).2
          = (parseLeadingDigits (substringFrom s (getStartIndex s jsonDesync).toNat) != 0))) := by
  refine ⟨?_, ?_, ?_⟩
  · intro h
    have hnn : 0 ≤ getStartIndex s jsonDuration :=
      getStartIndex_nonneg_of_present s _ (by decide) h
    simp only [getDuration]
    rw [if_neg (by omega)]
    exact ⟨rfl, fun hform => by rw [strtoul0_decimalForm _ hform]⟩
  · intro h
    have hnn : 0 ≤ getStartIndex s jsonUnsynchronizedMessageID :=
      getStartIndex_nonneg_of_present s _ (by decide) h
    simp only [getUnsynchronizedMessageID]
    rw [if_neg (by omega)]
    exact ⟨rfl, fun hform => by rw [strtoul0_decimalForm _ hform]⟩
  · intro h
    have hnn : 0 ≤ getStartIndex s jsonDesync :=
      getStartIndex_nonneg_of_present s _ (by decide) h
    simp only [getDesync]
    rw [if_neg (by omega)]
    exact ⟨rfl, fun hform => by rw [strtoul0_decimalForm _ hform]⟩

/-- C9 counterexample to the claim as stated: the getters parse with
`strtoul(..., 0)`, whose base detection differs from the spec's plain
"read leading digits" semantics.  On value "0x10" (identifier present, no
end delimiter), `getDuration` returns (true, 16), while the leading-digit
parse of the same value text yields 0. -/
theorem claim9_counterexample :
    jsonDuration <:+: ("\"duration\":\"0x10\"").toList ∧
    getDuration ("\"duration\":\"0x10\"").toList 0 = (true, 16) ∧
    parseLeadingDigits (substringFrom ("\"duration\":\"0x10\"").toList
      (getStartIndex ("\"duration\":\"0x10\"").toList jsonDuration).toNat) = 0 := by
  decide

/-- C9 witness: the amended theorem applied at concrete messages. -/
theorem claim9_witness :
    getDuration ("\"duration\":\"5000\"").toList 0 = (true, 5000) ∧
    getUnsynchronizedMessageID ("\"unsyncMsgID\":\"77\"").toList 0 = (true, 77) ∧
    getDesync ("\"desync\":\"1\"").toList false = (true, true) ∧
    getDesync ("\"desync\":\"0\"").toList true = (true, false) := by
  have h1 := (claim9_amended ("\"duration\":\"5000\"").toList 0 0 false).1 (by decide)
  have h2 := (claim9_amended ("\"unsyncMsgID\":\"77\"").toList 0 0 false).2.1 (by decide)
  have h3 := (claim9_amended ("\"desync\":\"1\"").toList 0 0 false).2.2 (by decide)
  have h4 := (claim9_amended ("\"desync\":\"0\"").toList 0 0 true).2.2 (by decide)
  refine ⟨?_, ?_, ?_, ?_⟩
  · have hv := h1.2 (by decide)
    have hf := h1.1
    cases hg : getDuration ("\"duration\":\"5000\"").toList 0 with
    | mk b v =>
      rw [hg] at hv hf
      simp at hv hf
      rw [hf, hv]
      decide
  · have hv := h2.2 (by decide)
    have hf := h2.1
    cases hg : getUnsynchronizedMessageID ("\"unsyncMsgID\":\"77\"").toList 0 with
    | mk b v =>
      rw [hg] at hv hf
      simp at hv hf
      rw [hf, hv]
      decide
  · have hv := h3.2 (by decide)
    have hf := h3.1
    cases hg : getDesync ("\"desync\":\"1\"").toList false with
    | mk b v =>
      rw [hg] at hv hf
      simp at hv hf
      rw [hf, hv]
      decide
  · have hv := h4.2 (by decide)
    have hf := h4.1
    cases hg : getDesync ("\"desync\":\"0\"").toList true with
    | mk b v =>
      rw [hg] at hv hf
      simp at hv hf
      rw [hf, hv]
      decide

/-! ## Claim C10: `getConnectionState` scans to the first brace of the whole
message -/

theorem singleton_infix_iff_mem (c : Char) (s : List Char) : [c] <:+: s ↔ c ∈ s := by
  constructor
  · intro h
    exact h.sublist.subset (List.mem_singleton_self c)
  · intro h
    obtain ⟨u, t, hut⟩ := List.mem_iff_append.mp h
    exact ⟨u, t, by rw [hut]; simp⟩

/-- C10: `getConnectionState` returns true iff the connectionState identifier
occurs in the message and the message contains a '}'.  Its result keeps the
identifier text (the start index is the raw first occurrence, not advanced
past the identifier), and the brace search starts at index 0: when the first
'}' of the whole message is at or after the identifier, the result is the
slice from the identifier through that brace inclusive; when a '}' precedes
the identifier, the (swapping) substring yields text drawn entirely from
before the identifier, so the returned text cannot contain the field's
value. -/
theorem claim10_theorem (s r0 : List Char) :
    ((getConnectionState s r0).1 = true ↔ (jsonConnectionState <:+: s ∧ '}' ∈ s)) ∧
    ((getConnectionState s r0).1 = false → (getConnectionState s r0).2 = r0) ∧
    (∀ p b : Nat, indexOfFrom s jsonConnectionState 0 = (p : Int) →
      indexOfFrom s ['}'] 0 = (b : Int) →
      (p ≤ b → (getConnectionState s r0).2 = (s.take (b + 1)).drop p) ∧
      (b < p → (getConnectionState s r0).2 = (s.take p).drop (b + 1) ∧
        ∃ u, u ++ (getConnectionState s r0).2 = s.take p)) := by
  have hbr : indexOfFrom s ['}'] 0 < 0 ↔ ('}' ∉ s) := by
    rw [indexOfFrom_zero_neg_iff s ['}'] (by decide)]
    constructor
    · intro h hm
      exact h ((singleton_infix_iff_mem '}' s).mpr hm)
    · intro h hocc
      exact h ((singleton_infix_iff_mem '}' s).mp hocc)
  refine ⟨?_, ?_, ?_⟩
  · simp only [getConnectionState]
    split_ifs with h1 h2
    · constructor
      · intro hf
        simp at hf
      · intro hr
        exact absurd ((indexOfFrom_zero_neg_iff s jsonConnectionState (by decide)).mp h1) (by
          intro hno
          exact hno hr.1)
    · constructor
      · intro hf
        simp at hf
      · intro hr
        exact absurd hr.2 (hbr.mp h2)
    · push_neg at h1 h2
      constructor
      · intro _
        refine ⟨?_, ?_⟩
        · have := (indexOfFrom_zero_nonneg_iff s jsonConnectionState (by decide)).mp (by omega)
          exact this
        · by_contra hm
          exact absurd (hbr.mpr hm) (by omega)
      · intro _
        rfl
  · simp only [getConnectionState]
    split_ifs with h1 h2
    · intro _
      rfl
    · intro _
      rfl
    · intro hf
      simp at hf
  · intro p b hp hb
    simp only [getConnectionState]
    rw [hp, if_neg (by omega), hb, if_neg (by omega)]
    simp only [Int.toNat_natCast]
    constructor
    · intro hle
      unfold substring
      rw [min_eq_left (by omega), max_eq_right (by omega)]
    · intro hlt
      unfold substring
      rw [min_eq_right (by omega), max_eq_left (by omega)]
      refine ⟨rfl, ⟨(s.take p).take (b + 1), ?_⟩⟩
      exact List.take_append_drop (b + 1) (s.take p)

/-- C10 witness: the theorem applied at a concrete message whose first brace
follows the identifier. -/
theorem claim10_witness :
    (getConnectionState ("\"connectionState\":\"C\"\x7d").toList []).1 = true ∧
    (getConnectionState ("\"connectionState\":\"C\"\x7d").toList []).2
      = ("\"connectionState\":\"C\"\x7d").toList := by
  have h := claim10_theorem ("\"connectionState\":\"C\"\x7d").toList []
  refine ⟨h.1.mpr ⟨by decide, by decide⟩, ?_⟩
  have h3 := (h.2.2 0 21 (by decide) (by decide)).1 (by omega)
  rw [h3]
  decide

/-! ## Claim C3: `verifyEncryptionRequestHmac` failure and delegation
structure -/

theorem getHmac_true_start (s r0 : List Char) (h : (getHmac s r0).1 = true) :
    0 ≤ indexOfFrom s jsonHmac 0 := by
  by_contra hneg
  push_neg at hneg
  have hst : getStartIndex s jsonHmac < 0 := by
    simp only [getStartIndex]
    rw [if_pos hneg]
    exact hneg
  simp only [getHmac] at h
  rw [if_pos hst] at h
  simp at h

/-- C3: `verifyEncryptionRequestHmac` returns false whenever the hmac field
cannot be extracted, and false whenever the extracted tag's length differs
from 2·SHA256_NATURAL_LENGTH; when the field is extracted with the correct
tag length, it returns true iff the external verifier accepts the tag over
the canonical input: requester STA string + requester AP string + the
message prefix strictly before the first occurrence of the hmac
identifier. -/
theorem claim3_theorem (verifyMeshHmac : List Char → List Char → List Nat → Nat → Bool)
    (msg sta ap : List Char) (key : List Nat) (kl : Nat) :
    ((getHmac msg []).1 = false →
      verifyEncryptionRequestHmac verifyMeshHmac msg sta ap key kl = false) ∧
    ((getHmac msg []).1 = true →
      (getHmac msg []).2.length ≠ 2 * SHA256_NATURAL_LENGTH →
      verifyEncryptionRequestHmac verifyMeshHmac msg sta ap key kl = false) ∧
    (∀ p : Nat, (getHmac msg []).1 = true →
      (getHmac msg []).2.length = 2 * SHA256_NATURAL_LENGTH →
      jsonHmac <+: msg.drop p →
      (∀ i, i < p → ¬ jsonHmac <+: msg.drop i) →
      (verifyEncryptionRequestHmac verifyMeshHmac msg sta ap key kl = true ↔
        verifyMeshHmac (sta ++ ap ++ msg.take p) (getHmac msg []).2 key kl = true)) := by
  refine ⟨?_, ?_, ?_⟩
  · intro hf
    simp only [verifyEncryptionRequestHmac]
    rw [hf]
    simp
  · intro ht hlen
    simp only [verifyEncryptionRequestHmac]
    rw [ht, if_pos rfl]
    by_cases hidx : indexOfFrom msg jsonHmac 0 < 0
    · rw [if_pos hidx]
    · rw [if_neg hidx, if_neg hlen]
  · intro p ht hlen hocc hfirst
    have hidx : indexOfFrom msg jsonHmac 0 = (p : Int) :=
      indexOfFrom_zero_eq msg jsonHmac p (by decide) hocc hfirst
    have hsub : substring msg 0 p = msg.take p := by
      unfold substring
      rw [min_eq_left (by omega), max_eq_right (by omega), List.drop_zero]
    simp only [verifyEncryptionRequestHmac]
    rw [ht, if_pos rfl, hidx, if_neg (by omega)]
    simp only [Int.toNat_natCast]
    rw [if_pos hlen, hsub]

/-- C3 witness: the theorem applied with an always-accepting verifier at a
concrete message carrying a 64-character tag. -/
theorem claim3_witness :
    verifyEncryptionRequestHmac (fun _ _ _ _ => true)
      (("\"hmac\":\"").toList ++ List.replicate 64 'A' ++ ("\"\x7d\x7d").toList)
      ("S").toList ("A").toList [] 0 = true := by
  have h := (claim3_theorem (fun _ _ _ _ => true)
    (("\"hmac\":\"").toList ++ List.replicate 64 'A' ++ ("\"\x7d\x7d").toList)
    ("S").toList ("A").toList [] 0).2.2 0 (by decide) (by decide)
    (by decide) (fun i hi => absurd hi (by omega))
  exact h.mpr rfl

/-! ## Claim C8: getter failure discipline -/

theorem stdGetter_facts {α : Type} (pat : List Char) (conv : List Char → α)
    (g : List Char → α → Bool × α)
    (hg : ∀ s r0, g s r0 =
      (if getStartIndex s pat < 0 then (false, r0)
       else if getEndIndex s (getStartIndex s pat).toNat < 0 then (false, r0)
       else (true, conv (substring s (getStartIndex s pat).toNat
         (getEndIndex s (getStartIndex s pat).toNat).toNat))))
    (hne : pat ≠ []) (s : List Char) (r0 : α) :
    (¬ pat <:+: s → g s r0 = (false, r0)) ∧
    ((g s r0).1 = false → (g s r0).2 = r0) ∧
    ((g s r0).1 = true → (g s r0).2 = conv (substring s (getStartIndex s pat).toNat
      (getEndIndex s (getStartIndex s pat).toNat).toNat)) := by
  refine ⟨?_, ?_, ?_⟩
  · intro habs
    rw [hg, if_pos (getStartIndex_neg_of_absent s pat hne habs)]
  · rw [hg]
    split_ifs <;> intro h <;> first | rfl | simp at h
  · rw [hg]
    split_ifs <;> intro h <;> first | rfl | simp at h

theorem macGetter_facts (pat : List Char) (g : List Char → List Nat → Bool × List Nat)
    (hg : ∀ s r0, g s r0 =
      (if getStartIndex s pat < 0 then (false, r0)
       else if getEndIndex s (getStartIndex s pat).toNat < 0 ∨
          getEndIndex s (getStartIndex s pat).toNat - getStartIndex s pat ≠ 12 then (false, r0)
       else (true, stringToMac (substring s (getStartIndex s pat).toNat
         (getEndIndex s (getStartIndex s pat).toNat).toNat))))
    (hne : pat ≠ []) (s : List Char) (r0 : List Nat) :
    (¬ pat <:+: s → g s r0 = (false, r0)) ∧
    ((g s r0).1 = false → (g s r0).2 = r0) ∧
    ((g s r0).1 = true → (g s r0).2 = stringToMac (substring s (getStartIndex s pat).toNat
      (getEndIndex s (getStartIndex s pat).toNat).toNat)) := by
  refine ⟨?_, ?_, ?_⟩
  · intro habs
    rw [hg, if_pos (getStartIndex_neg_of_absent s pat hne habs)]
  · rw [hg]
    split_ifs <;> intro h <;> first | rfl | simp at h
  · rw [hg]
    split_ifs <;> intro h <;> first | rfl | simp at h

theorem numGetter_facts {α : Type} (pat : List Char) (conv : List Char → α)
    (g : List Char → α → Bool × α)
    (hg : ∀ s r0, g s r0 =
      (if getStartIndex s pat < 0 then (false, r0)
       else (true, conv (substringFrom s (getStartIndex s pat).toNat))))
    (hne : pat ≠ []) (s : List Char) (r0 : α) :
    (¬ pat <:+: s → g s r0 = (false, r0)) ∧
    ((g s r0).1 = false → (g s r0).2 = r0) ∧
    (pat <:+: s → g s r0 = (true, conv (substringFrom s (getStartIndex s pat).toNat))) := by
  refine ⟨?_, ?_, ?_⟩
  · intro habs
    rw [hg, if_pos (getStartIndex_neg_of_absent s pat hne habs)]
  · rw [hg]
    split_ifs <;> intro h <;> first | rfl | simp at h
  · intro hpres
    have := getStartIndex_nonneg_of_present s pat hne hpres
    rw [hg, if_neg (by omega)]

theorem connGetter_facts (s : List Char) (r0 : List Char) :
    (¬ jsonConnectionState <:+: s → getConnectionState s r0 = (false, r0)) ∧
    ((getConnectionState s r0).1 = false → (getConnectionState s r0).2 = r0) := by
  constructor
  · intro habs
    simp only [getConnectionState]
    rw [if_pos ((indexOfFrom_zero_neg_iff s jsonConnectionState (by decide)).mpr habs)]
  · simp only [getConnectionState]
    split_ifs <;> intro h <;> first | rfl | simp at h

theorem meshGetter_facts (s : List Char) (r0 : Nat) :
    (¬ jsonMeshMessageCount <:+: s → getMeshMessageCount s r0 = some (false, r0)) ∧
    (∀ b v, getMeshMessageCount s r0 = some (b, v) → b = false → v = r0) ∧
    (getMeshMessageCount s r0 = none ↔ (jsonMeshMessageCount <:+: s ∧
      65535 < strtoul0 (substringFrom s (getStartIndex s jsonMeshMessageCount).toNat))) := by
  refine ⟨?_, ?_, ?_⟩
  · intro habs
    simp only [getMeshMessageCount]
    rw [if_pos (getStartIndex_neg_of_absent s _ (by decide) habs)]
  · simp only [getMeshMessageCount]
    split_ifs with h1 h2 <;> intro b v heq hb
    · injection heq with heq
      injection heq with hb' hv'
      exact hv'.symm
    · injection heq with heq
      injection heq with hb' hv'
      rw [← hb'] at hb
      exact absurd hb (by simp)
    · simp at heq
  · simp only [getMeshMessageCount]
    split_ifs with h1 h2
    · constructor
      · intro heq
        simp at heq
      · intro hr
        have := getStartIndex_nonneg_of_present s _ (by decide) hr.1
        omega
    · constructor
      · intro heq
        simp at heq
      · intro hr
        omega
    · constructor
      · intro _
        push_neg at h1
        constructor
        · by_contra habs
          have := getStartIndex_neg_of_absent s _ (by decide) habs
          omega
        · omega
      · intro _
        rfl

/-- C8 (amended): every typed field getter returns false with its output
parameter completely unchanged whenever the field identifier is absent or the
value malformed, and on a true return writes the converted value; the one
exception — which falsifies the claim as stated (`claim8_counterexample`) —
is `getMeshMessageCount`, whose over-65535 case is a fatal abort that
neither returns false nor writes a truncated value.  (Exceptions do not
exist in this pure embedding; every getter is a total function apart from
that modelled abort.) -/
theorem claim8_amended (s : List Char) (rs rn rh rc : List Char) (rk rp rd ru rm : Nat)
    (ra rb : List Nat) (rz : Bool) :
    ((¬ jsonConnectionState <:+: s → getConnectionState s rc = (false, rc)) ∧
      ((getConnectionState s rc).1 = false → (getConnectionState s rc).2 = rc)) ∧
    ((¬ jsonPassword <:+: s → getPassword s rs = (false, rs)) ∧
      ((getPassword s rs).1 = false → (getPassword s rs).2 = rs) ∧
      ((getPassword s rs).1 = true → (getPassword s rs).2
        = substring s (getStartIndex s jsonPassword).toNat
            (getEndIndex s (getStartIndex s jsonPassword).toNat).toNat)) ∧
    ((¬ jsonOwnSessionKey <:+: s → getOwnSessionKey s rk = (false, rk)) ∧
      ((getOwnSessionKey s rk).1 = false → (getOwnSessionKey s rk).2 = rk) ∧
      ((getOwnSessionKey s rk).1 = true → (getOwnSessionKey s rk).2
        = stringToUint64 (substring s (getStartIndex s jsonOwnSessionKey).toNat
            (getEndIndex s (getStartIndex s jsonOwnSessionKey).toNat).toNat))) ∧
    ((¬ jsonPeerSessionKey <:+: s → getPeerSessionKey s rp = (false, rp)) ∧
      ((getPeerSessionKey s rp).1 = false → (getPeerSessionKey s rp).2 = rp) ∧
      ((getPeerSessionKey s rp).1 = true → (getPeerSessionKey s rp).2
        = stringToUint64 (substring s (getStartIndex s jsonPeerSessionKey).toNat
            (getEndIndex s (getStartIndex s jsonPeerSessionKey).toNat).toNat))) ∧
    ((¬ jsonPeerStaMac <:+: s → getPeerStaMac s ra = (false, ra)) ∧
      ((getPeerStaMac s ra).1 = false → (getPeerStaMac s ra).2 = ra) ∧
      ((getPeerStaMac s ra).1 = true → (getPeerStaMac s ra).2
        = stringToMac (substring s (getStartIndex s jsonPeerStaMac).toNat
            (getEndIndex s (getStartIndex s jsonPeerStaMac).toNat).toNat))) ∧
    ((¬ jsonPeerApMac <:+: s → getPeerApMac s rb = (false, rb)) ∧
      ((getPeerApMac s rb).1 = false → (getPeerApMac s rb).2 = rb) ∧
      ((getPeerApMac s rb).1 = true → (getPeerApMac s rb).2
        = stringToMac (substring s (getStartIndex s jsonPeerApMac).toNat
            (getEndIndex s (getStartIndex s jsonPeerApMac).toNat).toNat))) ∧
    ((¬ jsonDuration <:+: s → getDuration s rd = (false, rd)) ∧
      ((getDuration s rd).1 = false → (getDuration s rd).2 = rd) ∧
      (jsonDuration <:+: s → getDuration s rd
        = (true, strtoul0 (substringFrom s (getStartIndex s jsonDuration).toNat)))) ∧
    ((¬ jsonNonce <:+: s → getNonce s rn = (false, rn)) ∧
      ((getNonce s rn).1 = false → (getNonce s rn).2 = rn) ∧
      ((getNonce s rn).1 = true → (getNonce s rn).2
        = substring s (getStartIndex s jsonNonce).toNat
            (getEndIndex s (getStartIndex s jsonNonce).toNat).toNat)) ∧
    ((¬ jsonHmac <:+: s → getHmac s rh = (false, rh)) ∧
      ((getHmac s rh).1 = false → (getHmac s rh).2 = rh) ∧
      ((getHmac s rh).1 = true → (getHmac s rh).2
        = substring s (getStartIndex s jsonHmac).toNat
            (getEndIndex s (getStartIndex s jsonHmac).toNat).toNat)) ∧
    ((¬ jsonDesync <:+: s → getDesync s rz = (false, rz)) ∧
      ((getDesync s rz).1 = false → (getDesync s rz).2 = rz) ∧
      (jsonDesync <:+: s → getDesync s rz
        = (true, strtoul0 (substringFrom s (getStartIndex s jsonDesync).toNat) != 0))) ∧
    ((¬ jsonUnsynchronizedMessageID <:+: s → getUnsynchronizedMessageID s ru = (false, ru)) ∧
      ((getUnsynchronizedMessageID s ru).1 = false →
        (getUnsynchronizedMessageID s ru).2 = ru) ∧
      (jsonUnsynchronizedMessageID <:+: s → getUnsynchronizedMessageID s ru
        = (true, strtoul0
            (substringFrom s (getStartIndex s jsonUnsynchronizedMessageID).toNat)))) ∧
    ((¬ jsonMeshMessageCount <:+: s → getMeshMessageCount s rm = some (false, rm)) ∧
      (∀ b v, getMeshMessageCount s rm = some (b, v) → b = false → v = rm) ∧
      (getMeshMessageCount s rm = none ↔ (jsonMeshMessageCount <:+: s ∧
        65535 < strtoul0 (substringFrom s (getStartIndex s jsonMeshMessageCount).toNat)))) := by
  exact ⟨connGetter_facts s rc,
    stdGetter_facts jsonPassword id getPassword (fun _ _ => rfl) (by decide) s rs,
    stdGetter_facts jsonOwnSessionKey stringToUint64 getOwnSessionKey (fun _ _ => rfl)
      (by decide) s rk,
    stdGetter_facts jsonPeerSessionKey stringToUint64 getPeerSessionKey (fun _ _ => rfl)
      (by decide) s rp,
    macGetter_facts jsonPeerStaMac getPeerStaMac (fun _ _ => rfl) (by decide) s ra,
    macGetter_facts jsonPeerApMac getPeerApMac (fun _ _ => rfl) (by decide) s rb,
    numGetter_facts jsonDuration strtoul0 getDuration (fun _ _ => rfl) (by decide) s rd,
    stdGetter_facts jsonNonce id getNonce (fun _ _ => rfl) (by decide) s rn,
    stdGetter_facts jsonHmac id getHmac (fun _ _ => rfl) (by decide) s rh,
    numGetter_facts jsonDesync (fun v => strtoul0 v != 0) getDesync (fun _ _ => rfl)
      (by decide) s rz,
    numGetter_facts jsonUnsynchronizedMessageID strtoul0 getUnsynchronizedMessageID
      (fun _ _ => rfl) (by decide) s ru,
    meshGetter_facts s rm⟩

/-- C8 counterexample to the claim as stated: on a meshMessageCount value of
70000 the getter neither returns false (untouched) nor returns true (written)
— it hits the fatal assertion, modelled as `none`.  The claim's
false-or-true dichotomy therefore fails at this input. -/
theorem claim8_counterexample :
    getMeshMessageCount ("\"meshMsgCount\":\"70000\"").toList 0 = none := by
  decide

/-- C8 witness: the amended theorem applied at a message with no identifiers
and at failure cases. -/
theorem claim8_witness :
    getPassword ("x").toList ("old").toList = (false, ("old").toList) ∧
    getPeerStaMac ("x").toList [1, 2] = (false, [1, 2]) ∧
    getDuration ("x").toList 7 = (false, 7) ∧
    getMeshMessageCount ("x").toList 9 = some (false, 9) := by
  have h := claim8_amended ("x").toList ("old").toList [] [] [] 0 0 7 0 9 [1, 2] [] false
  exact ⟨h.2.1.1 (by decide), h.2.2.2.2.1.1 (by decide), h.2.2.2.2.2.2.1.1 (by decide),
    h.2.2.2.2.2.2.2.2.2.2.2.1 (by decide)⟩

/-! ## Claim C2: HMAC message round trip -/

theorem crossFree_of_left (pat a b : List Char)
    (h : ∀ k, k < pat.length → 0 < k → ¬ pat.take k <:+ a) : CrossFree pat a b := by
  intro k hklt hk0 hand
  exact h k hklt hk0 hand.1

theorem hmacMsg_shape_temp (hdr non : List Char) (d : Nat)
    (h : hdr = temporaryEncryptionRequestHeader) :
    createEncryptionRequestIntro hdr d ++ createJsonPair jsonNonce non =
      hdr ++ (kArgs ++ (kDurOpen ++ (uint32ToString d ++ (kSepNonce ++ (non ++ kSep))))) := by
  unfold createEncryptionRequestIntro createJsonPair kArgs kDurOpen kSepNonce kSep
  rw [if_pos h]
  simp [List.append_assoc]

theorem hmacMsg_shape_plain (hdr non : List Char) (d : Nat)
    (h : hdr ≠ temporaryEncryptionRequestHeader) :
    createEncryptionRequestIntro hdr d ++ createJsonPair jsonNonce non =
      hdr ++ (kOpenNonce ++ (non ++ kSep)) := by
  unfold createEncryptionRequestIntro createJsonPair kOpenNonce kArgs kSep
  rw [if_neg h]
  simp [List.append_assoc]

theorem noOcc_hmac_main (hdr non : List Char) (d : Nat) (hh : CleanText hdr)
    (hn : CleanText non) :
    NoOcc jsonHmac (createEncryptionRequestIntro hdr d ++ createJsonPair jsonNonce non) := by
  have hq : '"' ∈ jsonHmac := by decide
  by_cases h : hdr = temporaryEncryptionRequestHeader
  · rw [hmacMsg_shape_temp hdr non d h]
    apply noOcc_append
    · exact noOcc_of_forall_ne _ _ '"' hq (cleanText_no_quote hdr hh)
    · apply noOcc_append
      · decide
      · apply noOcc_append
        · decide
        · apply noOcc_append
          · exact noOcc_of_forall_ne _ _ '"' hq (uint32ToString_no_quote d)
          · apply noOcc_append
            · decide
            · apply noOcc_append
              · exact noOcc_of_forall_ne _ _ '"' hq (cleanText_no_quote non hn)
              · decide
              · exact crossFree_of_right _ _ _ (by decide)
            · exact crossFree_step _ _ _ _ 4 (by decide) (by decide)
                (cleanText_no_quote non hn) (by decide) (by decide)
          · exact crossFree_of_take2 _ _ kSepNonce _ (by decide) (by decide)
        · exact crossFree_step_head _ _ _ _ 'h' (by decide) (uint32ToString_no_h d)
            (by rw [List.getElem?_append_left (by decide)]; decide) (by decide)
      · exact crossFree_of_left _ _ _ (by decide)
    · exact crossFree_of_take2 _ _ kArgs _ (by decide) (by decide)
  · rw [hmacMsg_shape_plain hdr non d h]
    apply noOcc_append
    · exact noOcc_of_forall_ne _ _ '"' hq (cleanText_no_quote hdr hh)
    · apply noOcc_append
      · decide
      · apply noOcc_append
        · exact noOcc_of_forall_ne _ _ '"' hq (cleanText_no_quote non hn)
        · decide
        · exact crossFree_of_right _ _ _ (by decide)
      · exact crossFree_step _ _ _ _ 4 (by decide) (by decide)
          (cleanText_no_quote non hn) (by decide) (by decide)
    · exact crossFree_of_take2 _ _ kOpenNonce _ (by decide) (by decide)

theorem hmacMsg_full_shape (createMeshHmac : List Char → List Nat → Nat → List Char)
    (sta ap hdr non : List Char) (key : List Nat) (kl d : Nat) :
    createEncryptionRequestHmacMessage createMeshHmac sta ap hdr non key kl d =
      (createEncryptionRequestIntro hdr d ++ createJsonPair jsonNonce non)
        ++ jsonHmac
        ++ '"' :: (createMeshHmac
            (sta ++ ap ++ (createEncryptionRequestIntro hdr d ++ createJsonPair jsonNonce non))
            key kl
          ++ '"' :: '}' :: '}' :: []) := by
  unfold createEncryptionRequestHmacMessage createJsonEndPair
  simp [List.append_assoc]

/-- C2 (amended): assume the external primitives satisfy the round trip
(verify of a created tag succeeds), that every created tag has length
2·SHA256_NATURAL_LENGTH, and that tags contain no ',' or '}' (on the real
primitive they are hexadecimal).  Then for every header and nonce free of
',', '}' and '"', and every duration, key and key length,
`verifyEncryptionRequestHmac` accepts the message built by
`createEncryptionRequestHmacMessage` when the requester STA/AP address
strings equal the local address strings read at composition time.  (The
claim as stated constrains only the nonce; `claim2_counterexample` defeats
it with a header carrying the hmac identifier text.) -/
theorem claim2_amended
    (createMeshHmac : List Char → List Nat → Nat → List Char)
    (verifyMeshHmac : List Char → List Char → List Nat → Nat → Bool)
    (sta ap hdr non : List Char) (key : List Nat) (kl d : Nat)
    (hh : CleanText hdr) (hn : CleanText non)
    (hver : ∀ m, verifyMeshHmac m (createMeshHmac m key kl) key kl = true)
    (hlen : ∀ m, (createMeshHmac m key kl).length = 2 * SHA256_NATURAL_LENGTH)
    (htag : ∀ m c, c ∈ createMeshHmac m key kl → c ≠ ',' ∧ c ≠ '}') :
    verifyEncryptionRequestHmac verifyMeshHmac
      (createEncryptionRequestHmacMessage createMeshHmac sta ap hdr non key kl d)
      sta ap key kl = true := by
  set B := createEncryptionRequestIntro hdr d ++ createJsonPair jsonNonce non with hB
  set tag := createMeshHmac (sta ++ ap ++ B) key kl with htagdef
  set msg := createEncryptionRequestHmacMessage createMeshHmac sta ap hdr non key kl d with hm
  have hmsg : msg = B ++ jsonHmac ++ '"' :: (tag ++ '"' :: '}' :: '}' :: []) := by
    rw [hm, hB, htagdef]
    exact hmacMsg_full_shape createMeshHmac sta ap hdr non key kl d
  have hBno : NoOcc jsonHmac B := noOcc_hmac_main hdr non d hh hn
  obtain ⟨hstart, hend, hsub⟩ := getField_end jsonHmac B tag (by decide) (by decide) hBno
    (fun hmem => (htag _ ',' hmem).1 rfl) (fun hmem => (htag _ '}' hmem).2 rfl)
  rw [← hmsg] at hstart hend hsub
  have hghmac : getHmac msg [] = (true, tag) := getHmac_eval msg [] _ _ tag hstart hend hsub
  have hidx : indexOfFrom msg jsonHmac 0 = (B.length : Int) := by
    rw [hmsg]
    exact firstOcc_concat jsonHmac B _ (by decide) (by decide) hBno
  have hsubstr : substring msg 0 B.length = B := by
    unfold substring
    rw [min_eq_left (by omega), max_eq_right (by omega), List.drop_zero, hmsg,
      List.append_assoc]
    exact take_concat_len B _ _ rfl
  simp only [verifyEncryptionRequestHmac]
  rw [hghmac]
  simp only
  rw [if_pos trivial, hidx, if_neg (by omega)]
  simp only [Int.toNat_natCast]
  rw [if_pos (by rw [htagdef]; exact hlen _), hsubstr]
  exact hver (sta ++ ap ++ B)

/-- C2 counterexample to the claim as stated: honest primitives satisfying
the claim's hypotheses (verify accepts exactly the constant 64-'A' tag that
create returns), a nonce meeting the claim's conditions, matching requester
addresses — but a header containing the hmac identifier text makes
`getHmac` extract a 1-character string from the header, so verification
returns false instead of the claimed true. -/
theorem claim2_counterexample :
    (∀ c ∈ ("N").toList, c ≠ ',' ∧ c ≠ '}') ∧ NoOcc jsonHmac ("N").toList ∧
    verifyEncryptionRequestHmac (fun _ tag _ _ => tag == List.replicate 64 'A')
      (createEncryptionRequestHmacMessage (fun _ _ _ => List.replicate 64 'A')
        ("S").toList ("A").toList ("\"hmac\":\"B\",").toList ("N").toList [] 0 5)
      ("S").toList ("A").toList [] 0 = false := by
  decide

/-- C2 witness: the amended theorem applied at a concrete instance with a
constant-tag primitive pair. -/
theorem claim2_witness :
    verifyEncryptionRequestHmac (fun _ tag _ _ => tag == List.replicate 64 'A')
      (createEncryptionRequestHmacMessage (fun _ _ _ => List.replicate 64 'A')
        ("S").toList ("A").toList ("H").toList ("N").toList [] 0 5)
      ("S").toList ("A").toList [] 0 = true :=
  claim2_amended (fun _ _ _ => List.replicate 64 'A')
    (fun _ tag _ _ => tag == List.replicate 64 'A')
    ("S").toList ("A").toList ("H").toList ("N").toList [] 0 5
    (by decide) (by decide)
    (fun m => by simp)
    (fun m => by simp [SHA256_NATURAL_LENGTH])
    (fun m c hc => by
      have := List.eq_of_mem_replicate hc
      subst this
      exact ⟨by decide, by decide⟩)

end JsonTranslator
